import Mathlib

/-!
Shallow embedding of the chunk-based ledger execution and replay pipeline
(`execution/executor/src/chunk_executor.rs`), together with a model of the
commit queue it drives (the queue itself lives outside the sources at hand,
so its operations are modelled from the specification, §4.2).

External collaborators (the VM, proof verification, checkpoint calculation,
the persistent store) are represented as oracle parameters: the pipeline
code only observes their success/failure and the data they return, so each
call site takes the collaborator's answer as an explicit argument.
-/

/-- A ledger version: an unsigned monotonically increasing integer
identifying a transaction's position in the ledger. -/
abbrev Version := Nat

/-- A contract event; the replay engine only inspects whether an event is a
reconfiguration (epoch-ending) event, via
`ParsedTransactionOutput::parse_reconfig_events`. -/
structure ContractEvent where
  is_reconfig : Bool
deriving Repr, DecidableEq

/-- `ParsedTransactionOutput::parse_reconfig_events(events).next().is_some()`:
whether an event list contains a reconfiguration event. -/
def has_reconfig_event (events : List ContractEvent) : Bool :=
  events.any (fun e => e.is_reconfig)

/-- Abstract transaction: the replay engine never inspects transactions,
only moves them around. -/
structure Transaction where
  id : Nat
deriving Repr, DecidableEq

/-- Abstract write set. -/
structure WriteSet where
  id : Nat
deriving Repr, DecidableEq

/-- Recorded transaction info: the fields the chunk executor reads
(`gas_used()`, `status()`, `state_checkpoint_hash()`). -/
structure TransactionInfo where
  gas_used : Nat
  status : Nat
  state_checkpoint_hash : Option Nat
deriving Repr, DecidableEq

/-- Transaction status as constructed by `remove_and_apply`:
`TransactionStatus::Keep(txn_info.status().clone())`. -/
inductive TransactionStatus where
  | Keep (s : Nat)
  | Discard (s : Nat)
deriving Repr, DecidableEq

/-- A transaction output as built by `TransactionOutput::new` in
`remove_and_apply`. -/
structure TransactionOutput where
  write_set : WriteSet
  events : List ContractEvent
  gas_used : Nat
  status : TransactionStatus
deriving Repr, DecidableEq

/-! ## Epoch partition (`ChunkExecutorInner::replay`, the epoch-boundary scan)

The source iterates `multizip((chunk_begin..chunk_end, event_vecs.iter()))`,
pushing `(epoch_begin, version + 1)` whenever the version's event list
contains a reconfiguration event, and finally pushes `(epoch_begin,
chunk_end)` if `epoch_begin < chunk_end`. -/

/-- The loop body of the epoch-boundary scan: walks the (version, events)
pairs, carrying `epoch_begin` and the accumulated `epochs` list; returns the
accumulated list and the final `epoch_begin`. -/
def find_epochs_loop :
    List (Nat × List ContractEvent) → Nat → List (Nat × Nat) →
    List (Nat × Nat) × Nat
  | [], epoch_begin, epochs => (epochs, epoch_begin)
  | (version, events) :: rest, epoch_begin, epochs =>
    if has_reconfig_event events then
      find_epochs_loop rest (version + 1) (epochs ++ [(epoch_begin, version + 1)])
    else
      find_epochs_loop rest epoch_begin epochs

/-- Epoch partition of `[chunk_begin, chunk_end)` given the per-version
event lists (zipped positionally, truncating at the shorter, as `multizip`
does). -/
def find_epochs (chunk_begin chunk_end : Nat)
    (event_vecs : List (List ContractEvent)) : List (Nat × Nat) :=
  let pairs := (List.range' chunk_begin (chunk_end - chunk_begin)).zip event_vecs
  let (epochs, epoch_begin) := find_epochs_loop pairs chunk_begin []
  if epoch_begin < chunk_end then epochs ++ [(epoch_begin, chunk_end)] else epochs

/-- `tiles b e l`: the ranges in `l` are nonempty, contiguous and exactly
cover `[b, e)`. -/
def tiles : Nat → Nat → List (Nat × Nat) → Bool
  | b, e, [] => b == e
  | b, e, (x, y) :: rest => x == b && b < y && tiles y e rest

/-! ## Replay engine state and collaborators -/

/-- The verification mode handed to `replay`, together with the external
collaborators the verification path consults.

`txns_to_skip`, `should_verify` and `lazy_quit` mirror
`VerifyExecutionMode` (strict / lazy / disabled plus a set of known-bad
versions). `mismatch v` is the answer of the external VM-re-execution plus
`ensure_match_transaction_info` comparison at version `v`: `true` means the
re-executed output does not match the recorded transaction info / write set
/ events there. -/
structure ReplayEnv where
  txns_to_skip : Nat → Bool
  should_verify : Bool
  lazy_quit : Bool
  mismatch : Nat → Bool

/-- An executed chunk as accumulated by replay: the first version covered
and the (transaction, output) pairs, in version order. `combine` of two
adjacent chunks appends the second's pairs to the first's. -/
structure RExecutedChunk where
  first_version : Nat
  txns_and_outputs : List (Transaction × TransactionOutput)
deriving Repr, DecidableEq

/-- `ExecutedChunk::combine`: merge an adjacent chunk into this one. -/
def RExecutedChunk.combine (c batch : RExecutedChunk) : RExecutedChunk :=
  { first_version := c.first_version,
    txns_and_outputs := c.txns_and_outputs ++ batch.txns_and_outputs }

/-- Mutable state threaded through `remove_and_replay_epoch` /
`remove_and_apply`: the four parallel input lists being drained from the
front, the accumulated executed chunk, and the `seen_error` flag of the
verification mode. `applied` and `verify_calls` record, for the proofs, the
version ranges passed to `remove_and_apply` and to `verify_execution`. -/
structure LoopState where
  transactions : List Transaction
  transaction_infos : List TransactionInfo
  write_sets : List WriteSet
  event_vecs : List (List ContractEvent)
  executed_chunk : Option RExecutedChunk
  seen_error : Bool
  applied : List (Nat × Nat)
  verify_calls : List (Nat × Nat)

/-- The per-version outputs `remove_and_apply` constructs from the recorded
data: `TransactionOutput::new(write_set, events, txn_info.gas_used(),
TransactionStatus::Keep(txn_info.status()))`, zipped positionally
(truncating at the shortest list, as `multizip` does). -/
def recorded_outputs : List Transaction → List TransactionInfo →
    List WriteSet → List (List ContractEvent) →
    List (Transaction × TransactionOutput)
  | txn :: txns, info :: infos, ws :: wss, evs :: evss =>
    (txn, ⟨ws, evs, info.gas_used, TransactionStatus.Keep info.status⟩) ::
      recorded_outputs txns infos wss evss
  | _, _, _, _ => []

/-- `ChunkExecutorInner::remove_and_apply`: consume
`end_version - begin_version` transactions from the front of the input
lists, build their outputs from the recorded data, apply them, and merge the
executed batch into the accumulated chunk.

The ledger application itself (`ChunkOutput::by_transaction_output`,
`apply_to_ledger`, `ensure_no_discard` / `ensure_no_retry`,
`ensure_transaction_infos_match`) is the external Checkpoint Calculator.
Modelled from the spec: for chunks built from pre-computed outputs,
ledger-update finalization never yields a non-empty discard or retry set
(§8), so direct application succeeds and yields exactly the recorded
outputs. -/
def remove_and_apply (st : LoopState) (begin_version end_version : Nat) :
    LoopState :=
  let num_txns := end_version - begin_version
  let batch : RExecutedChunk :=
    { first_version := begin_version,
      txns_and_outputs :=
        recorded_outputs (st.transactions.take num_txns)
          (st.transaction_infos.take num_txns)
          (st.write_sets.take num_txns) (st.event_vecs.take num_txns) }
  { st with
    transactions := st.transactions.drop num_txns,
    transaction_infos := st.transaction_infos.drop num_txns,
    write_sets := st.write_sets.drop num_txns,
    event_vecs := st.event_vecs.drop num_txns,
    executed_chunk :=
      some (match st.executed_chunk with
            | some c => c.combine batch
            | none => batch),
    applied := st.applied ++ [(begin_version, end_version)] }

/-- Errors surfacing from replay. `mismatch` is the descriptive verification
error of strict mode; `unwrap_none` models the `batch_ends.next().unwrap()`
panic; `expect_nothing_to_commit` models the
`executed_chunk.expect("Nothing to commit.")` panic; `fuel_out` is an
artifact of the fuel-indexed loop and is unreachable with adequate fuel. -/
inductive ReplayErr where
  | mismatch (v : Nat)
  | unwrap_none
  | expect_nothing_to_commit
  | fuel_out
deriving Repr, DecidableEq

/-- First version in `[b, b + n)` at which the re-executed output
mismatches the recorded one (the order in which
`ChunkExecutorInner::verify_execution` discovers errors). -/
def find_mismatch (mis : Nat → Bool) : Nat → Nat → Option Nat
  | _, 0 => none
  | b, n + 1 => if mis b then some b else find_mismatch mis (b + 1) n

/-- `ChunkExecutorInner::verify_execution`: re-execute
`[begin_version, end_version)` and compare each output against the recorded
transaction info / write set / events. No mismatch: returns `end_version`.
At the first mismatching version: lazy mode marks the seen-error flag and
returns `version + 1`; strict mode fails with that error. Returns the
next-begin version together with the updated seen-error flag. -/
def verify_execution (env : ReplayEnv) (seen_error : Bool)
    (begin_version end_version : Nat) : Except ReplayErr (Nat × Bool) :=
  match find_mismatch env.mismatch begin_version (end_version - begin_version) with
  | none => .ok (end_version, seen_error)
  | some v =>
    if env.lazy_quit then .ok (v + 1, true) else .error (.mismatch v)

/-- The batch-ends iterator of `remove_and_replay_epoch`:
`txns_to_skip.range(begin..end).chain(once(&end))` — the skip-set versions
inside the epoch in ascending order, followed by the epoch end. -/
def batch_ends_list (skip : Nat → Bool) (begin_version end_version : Nat) :
    List Nat :=
  ((List.range' begin_version (end_version - begin_version)).filter
    (fun v => skip v)) ++ [end_version]

/-- The `while batch_begin < end_version` loop of
`remove_and_replay_epoch`. `batch_end` is the current element pulled from
the batch-ends iterator and `ends` its remaining elements. Fuel-indexed:
each iteration consumes one unit; `end_version - batch_begin + 1` units
suffice for any run. -/
def replay_epoch_loop (env : ReplayEnv) (end_version : Nat) :
    Nat → Nat → Nat → List Nat → LoopState → Except ReplayErr LoopState
  | 0, _, _, _, _ => .error .fuel_out
  | fuel + 1, batch_begin, batch_end, ends, st =>
    if batch_begin < end_version then
      if batch_begin = batch_end then
        -- batch_end is a known broken version that won't pass execution
        -- verification: apply it directly as a single-transaction batch.
        let st' := remove_and_apply st batch_begin (batch_begin + 1)
        match ends with
        | [] => .error .unwrap_none
        | next_end :: rest =>
          replay_epoch_loop env end_version fuel (batch_begin + 1) next_end rest st'
      else
        let step : Except ReplayErr (Nat × Bool) :=
          if env.should_verify then
            verify_execution env st.seen_error batch_begin batch_end
          else
            .ok (batch_end, st.seen_error)
        match step with
        | .error e => .error e
        | .ok (next_begin, seen') =>
          let st' :=
            { st with
              seen_error := seen',
              verify_calls :=
                if env.should_verify then
                  st.verify_calls ++ [(batch_begin, batch_end)]
                else st.verify_calls }
          replay_epoch_loop env end_version fuel next_begin batch_end ends
            (remove_and_apply st' batch_begin next_begin)
    else
      .ok st

/-- `ChunkExecutorInner::remove_and_replay_epoch` over
`[begin_version, end_version)`: split on the skip-set versions and the
epoch end, then run the batch loop. -/
def remove_and_replay_epoch (env : ReplayEnv)
    (begin_version end_version : Nat) (st : LoopState) :
    Except ReplayErr LoopState :=
  match batch_ends_list env.txns_to_skip begin_version end_version with
  | [] => .error .unwrap_none
  | batch_end :: rest =>
    replay_epoch_loop env end_version (end_version - begin_version + 1)
      begin_version batch_end rest st

/-- The epoch fold of `ChunkExecutorInner::replay`: process the epochs in
order, threading the loop state. -/
def replay_epochs (env : ReplayEnv) :
    List (Nat × Nat) → LoopState → Except ReplayErr LoopState
  | [], st => .ok st
  | (b, e) :: rest, st =>
    match remove_and_replay_epoch env b e st with
    | .error err => .error err
    | .ok st' => replay_epochs env rest st'

/-- `ChunkExecutorInner::replay` (inner): compute the epoch partition of
`[chunk_begin, chunk_begin + transactions.len())`, replay epoch by epoch,
and finally take the accumulated chunk (`expect("Nothing to commit.")` —
a panic when nothing was accumulated) to enqueue it for direct commit.
Returns the chunk that gets enqueued. -/
def replay_impl (env : ReplayEnv) (chunk_begin : Nat)
    (transactions : List Transaction)
    (transaction_infos : List TransactionInfo) (write_sets : List WriteSet)
    (event_vecs : List (List ContractEvent)) :
    Except ReplayErr (RExecutedChunk × LoopState) :=
  let chunk_end := chunk_begin + transactions.length
  let epochs := find_epochs chunk_begin chunk_end event_vecs
  let st0 : LoopState :=
    { transactions := transactions, transaction_infos := transaction_infos,
      write_sets := write_sets, event_vecs := event_vecs,
      executed_chunk := none, seen_error := false,
      applied := [], verify_calls := [] }
  match replay_epochs env epochs st0 with
  | .error err => .error err
  | .ok st =>
    match st.executed_chunk with
    | none => .error .expect_nothing_to_commit
    | some c => .ok (c, st)

def chunk_outs (st : LoopState) : List (Transaction × TransactionOutput) :=
  match st.executed_chunk with
  | none => []
  | some c => c.txns_and_outputs

def chunk_first (st : LoopState) (d : Nat) : Nat :=
  match st.executed_chunk with
  | none => d
  | some c => c.first_version

/-- The net effect of a completed `replay_epoch_loop` run on the loop state,
relative to the segment `[bb, endV)` it still had to process. -/
def LoopSpec (env : ReplayEnv) (endV bb : Nat) (st st' : LoopState) : Prop :=
  (∃ B, st'.applied = st.applied ++ B ∧ tiles bb endV B = true) ∧
  (∀ v, env.txns_to_skip v = true → bb ≤ v → v < endV →
    (v, v + 1) ∈ st'.applied) ∧
  (∀ p ∈ st'.verify_calls, p ∈ st.verify_calls ∨
    ∀ v, env.txns_to_skip v = true → ¬(p.1 ≤ v ∧ v < p.2)) ∧
  st'.transactions = st.transactions.drop (endV - bb) ∧
  st'.transaction_infos = st.transaction_infos.drop (endV - bb) ∧
  st'.write_sets = st.write_sets.drop (endV - bb) ∧
  st'.event_vecs = st.event_vecs.drop (endV - bb) ∧
  (bb = endV → st' = st) ∧
  (bb < endV → ∃ c', st'.executed_chunk = some c' ∧
    c'.first_version = chunk_first st bb ∧
    c'.txns_and_outputs = chunk_outs st ++
      recorded_outputs (st.transactions.take (endV - bb))
        (st.transaction_infos.take (endV - bb))
        (st.write_sets.take (endV - bb)) (st.event_vecs.take (endV - bb)))

/-! ## Pipeline data model (chunk executor and commit queue)

The commit queue (`ChunkCommitQueue`) and several carried types live outside
the sources at hand — only their caller `chunk_executor.rs` is available —
so the queue state and its operations are modelled from the specification
(§4.2), while the executor functions themselves are translated from the
source. -/

/-- A state delta / snapshot; `next_version` is the version of the next
transaction not yet reflected in it (0 for an empty ledger). -/
structure StateDelta where
  current_version : Option Nat
  base_version : Option Nat
deriving Repr, DecidableEq

def StateDelta.next_version (s : StateDelta) : Nat :=
  match s.current_version with
  | none => 0
  | some v => v + 1

/-- An abstract signed ledger checkpoint (`LedgerInfoWithSignatures`). -/
structure LedgerInfo where
  id : Nat
deriving Repr, DecidableEq

/-- Abstract next-epoch state marker. -/
structure EpochState where
  id : Nat
deriving Repr, DecidableEq

/-- The transaction accumulator snapshot: its leaf count is the next
version; the root hash authenticates history (abstract). -/
structure Accumulator where
  num_leaves : Nat
  root_hash : Nat
deriving Repr, DecidableEq

/-- The proof part of a chunk: the transaction infos it carries. -/
structure TxnInfoListWithProof where
  transaction_infos : List TransactionInfo
deriving Repr, DecidableEq

/-- Abstract staged checkpoint computation produced by
`calculate_state_checkpoint` and consumed by `calculate_ledger_update`. -/
structure StateCheckpointOutput where
  id : Nat
deriving Repr, DecidableEq

/-- The fields of the finalized ledger-update output the executor reads:
the first version covered, the finalized transaction infos (compared
against the proof's), the transactions to commit and the new accumulator. -/
structure LedgerUpdateOutput where
  first_version : Nat
  transaction_infos : List TransactionInfo
  txns_to_commit : List Transaction
  transaction_accumulator : Accumulator
deriving Repr, DecidableEq

/-- Stage-two (executed) chunk. -/
structure ExecutedChunk where
  result_state : StateDelta
  ledger_info : Option LedgerInfo
  next_epoch_state : Option EpochState
  ledger_update_output : LedgerUpdateOutput
deriving Repr, DecidableEq

def ExecutedChunk.transactions_to_commit (c : ExecutedChunk) :
    List Transaction :=
  c.ledger_update_output.txns_to_commit

/-- Commit notification returned by `commit_chunk`. Modelled from the spec:
"returns a commit notification (committed transactions + any
reconfiguration-triggering events) for external subscribers" (§4.6). -/
structure ChunkCommitNotification where
  committed_transactions : List Transaction
  reconfiguration_occurred : Bool
deriving Repr, DecidableEq

def ExecutedChunk.into_chunk_commit_notification (c : ExecutedChunk) :
    ChunkCommitNotification :=
  ⟨c.transactions_to_commit, c.next_epoch_state.isSome⟩

/-- Stage-one record (`ChunkToUpdateLedger`): result of execution/apply
staging, owned by the commit queue until consumed by `update_ledger`. -/
structure ChunkToUpdateLedger where
  result_state : StateDelta
  state_checkpoint_output : StateCheckpointOutput
  next_epoch_state : Option EpochState
  verified_target_li : LedgerInfo
  epoch_change_li : Option LedgerInfo
  txn_infos_with_proof : TxnInfoListWithProof
deriving Repr, DecidableEq

/-- Errors of the pipeline. `overlap_assert` models the
`assert_eq!(num_overlap, 0)` panic; `not_reset_panic` models the
`.expect("not reset")` panic of the facade; the rest are descriptive
errors returned to the caller. -/
inductive PipelineErr where
  | nothing_to_commit
  | nothing_to_update
  | empty_chunk
  | missing_first_version
  | version_mismatch (got expected : Nat)
  | proof_verification
  | overlap_assert
  | unexpected_discard
  | unexpected_retry
  | txn_info_mismatch
  | ledger_info_selection
  | storage
  | not_reset_panic
  | replay_failed (e : ReplayErr)
deriving Repr, DecidableEq

/-- Modelled from the spec (§4.2): the commit queue — two FIFO stages, the
latest *staged* state used by producers to validate continuity, the staged
transaction accumulator, and the persisted ("committed watermark") state. -/
structure ChunkCommitQueue where
  to_update_ledger : List ChunkToUpdateLedger
  to_commit : List ExecutedChunk
  latest_state : StateDelta
  latest_txn_accumulator : Accumulator
  persisted_state : StateDelta
deriving Repr, DecidableEq

/-- The persistent ledger store, as far as queue construction reads it. -/
structure Db where
  persisted_state : StateDelta
  persisted_accumulator : Accumulator
deriving Repr, DecidableEq

/-- Modelled from the spec (§4.1): a fresh queue built from the store's
current persisted state — empty stages, staged = persisted. -/
def ChunkCommitQueue.new_from_db (db : Db) : ChunkCommitQueue :=
  ⟨[], [], db.persisted_state, db.persisted_accumulator, db.persisted_state⟩

/-- Modelled from the spec (§4.2): append to stage one; the most recently
staged state becomes the chunk's result state. -/
def ChunkCommitQueue.enqueue_for_ledger_update (q : ChunkCommitQueue)
    (c : ChunkToUpdateLedger) : ChunkCommitQueue :=
  { q with
      to_update_ledger := q.to_update_ledger ++ [c],
      latest_state := c.result_state }

/-- Modelled from the spec (§4.2): pop the oldest stage-one record together
with the current accumulator snapshot needed to finalize it. -/
def ChunkCommitQueue.next_chunk_to_update_ledger (q : ChunkCommitQueue) :
    Except PipelineErr (Accumulator × ChunkToUpdateLedger × ChunkCommitQueue) :=
  match q.to_update_ledger with
  | [] => .error .nothing_to_update
  | c :: rest =>
    .ok (q.latest_txn_accumulator, c, { q with to_update_ledger := rest })

/-- Modelled from the spec (§4.2): push the finalized chunk into stage two;
the staged accumulator advances to the chunk's accumulator. -/
def ChunkCommitQueue.save_ledger_update_output (q : ChunkCommitQueue)
    (c : ExecutedChunk) : ChunkCommitQueue :=
  { q with
      to_commit := q.to_commit ++ [c],
      latest_txn_accumulator := c.ledger_update_output.transaction_accumulator }

/-- Modelled from the spec (§4.2, §4.6, §7): return the oldest stage-two
chunk together with the persisted-state snapshot needed to write it. The
chunk is removed only by `dequeue_committed` after a successful store
write — on a persistence failure it remains staged in stage two so that
`commit_chunk()` may be retried. -/
def ChunkCommitQueue.next_chunk_to_commit (q : ChunkCommitQueue) :
    Except PipelineErr (StateDelta × ExecutedChunk) :=
  match q.to_commit with
  | [] => .error .nothing_to_commit
  | c :: _ => .ok (q.persisted_state, c)

/-- Modelled from the spec (§4.2): advance the committed watermark after a
successful store write, removing the committed chunk from stage two. -/
def ChunkCommitQueue.dequeue_committed (q : ChunkCommitQueue)
    (new_state : StateDelta) : Except PipelineErr ChunkCommitQueue :=
  match q.to_commit with
  | [] => .error .nothing_to_commit
  | _ :: rest =>
    .ok { q with to_commit := rest, persisted_state := new_state }

/-- Modelled from the spec (§4.2): used by replay to bypass stage one. -/
def ChunkCommitQueue.enqueue_chunk_to_commit_directly (q : ChunkCommitQueue)
    (c : ExecutedChunk) : ChunkCommitQueue :=
  { q with
      to_commit := q.to_commit ++ [c],
      latest_state := c.result_state,
      latest_txn_accumulator := c.ledger_update_output.transaction_accumulator }

/-! ## Chunk executor implementation (`ChunkExecutorInner`), from the source

External collaborators appear as explicit arguments carrying their answer
for the call being modelled: `save_fails` (the store write / injected fail
point in `commit_chunk_impl`), `verify_ok` (proof verification),
checkpoint-calculator results, and so on. -/

/-- `ChunkExecutorInner::commit_chunk_impl`: peek the oldest stage-two
chunk; if it has a ledger info or any transactions to commit, write it to
the store (`save_fails` = the write or the injected fail point failing,
propagated); then advance the committed watermark to the chunk's result
state. -/
def ChunkExecutorInner.commit_chunk_impl (save_fails : Bool)
    (q : ChunkCommitQueue) :
    Except PipelineErr (ChunkCommitQueue × ExecutedChunk) :=
  match q.next_chunk_to_commit with
  | .error e => .error e
  | .ok (_persisted_state, chunk) =>
    if chunk.ledger_info.isSome || !chunk.transactions_to_commit.isEmpty then
      if save_fails then
        .error .storage
      else
        (q.dequeue_committed chunk.result_state).map fun q' => (q', chunk)
    else
      (q.dequeue_committed chunk.result_state).map fun q' => (q', chunk)

/-- `ChunkExecutorInner::commit_chunk`: commit and convert the chunk into a
commit notification. -/
def ChunkExecutorInner.commit_chunk (save_fails : Bool)
    (q : ChunkCommitQueue) :
    Except PipelineErr (ChunkCommitQueue × ChunkCommitNotification) :=
  (ChunkExecutorInner.commit_chunk_impl save_fails q).map fun p =>
    (p.1, p.2.into_chunk_commit_notification)

/-- The chunk-with-proof input of the execution path. -/
structure TransactionListWithProof where
  transactions : List Transaction
  first_transaction_version : Option Nat
  proof : TxnInfoListWithProof
deriving Repr, DecidableEq

/-- The chunk-with-proof input of the apply path. -/
structure TransactionOutputListWithProof where
  transactions_and_outputs : List (Transaction × TransactionOutput)
  first_transaction_output_version : Option Nat
  proof : TxnInfoListWithProof
deriving Repr, DecidableEq

/-- `ChunkExecutorInner::enqueue_chunk_by_execution`: validate (non-empty,
first version present, first version equals the queue's next version),
verify the proof (`verify_ok`), execute and compute the state checkpoint
(`ckpt_*`, the external VM / Checkpoint Calculator results), and push the
staged record to stage one. Every failure returns before the queue is
touched. -/
def ChunkExecutorInner.enqueue_chunk_by_execution (verify_ok : Bool)
    (ckpt_result_state : StateDelta) (ckpt_next_epoch : Option EpochState)
    (ckpt_output : StateCheckpointOutput) (q : ChunkCommitQueue)
    (txn_list_with_proof : TransactionListWithProof)
    (verified_target_li : LedgerInfo) (epoch_change_li : Option LedgerInfo) :
    Except PipelineErr ChunkCommitQueue :=
  let num_txns := txn_list_with_proof.transactions.length
  if num_txns = 0 then
    .error .empty_chunk
  else
    match txn_list_with_proof.first_transaction_version with
    | none => .error .missing_first_version
    | some first_version_in_request =>
      let parent_state := q.latest_state
      if first_version_in_request ≠ parent_state.next_version then
        .error (.version_mismatch first_version_in_request
          parent_state.next_version)
      else if ¬ verify_ok then
        .error .proof_verification
      else
        .ok (q.enqueue_for_ledger_update
          { result_state := ckpt_result_state,
            state_checkpoint_output := ckpt_output,
            next_epoch_state := ckpt_next_epoch,
            verified_target_li := verified_target_li,
            epoch_change_li := epoch_change_li,
            txn_infos_with_proof := txn_list_with_proof.proof })

/-- `ChunkExecutorInner::enqueue_chunk_by_transaction_outputs`: identical
validation, but transactions arrive with pre-computed outputs. -/
def ChunkExecutorInner.enqueue_chunk_by_transaction_outputs (verify_ok : Bool)
    (ckpt_result_state : StateDelta) (ckpt_next_epoch : Option EpochState)
    (ckpt_output : StateCheckpointOutput) (q : ChunkCommitQueue)
    (txn_output_list_with_proof : TransactionOutputListWithProof)
    (verified_target_li : LedgerInfo) (epoch_change_li : Option LedgerInfo) :
    Except PipelineErr ChunkCommitQueue :=
  let num_txns := txn_output_list_with_proof.transactions_and_outputs.length
  if num_txns = 0 then
    .error .empty_chunk
  else
    match txn_output_list_with_proof.first_transaction_output_version with
    | none => .error .missing_first_version
    | some first_version_in_request =>
      let parent_state := q.latest_state
      if first_version_in_request ≠ parent_state.next_version then
        .error (.version_mismatch first_version_in_request
          parent_state.next_version)
      else if ¬ verify_ok then
        .error .proof_verification
      else
        .ok (q.enqueue_for_ledger_update
          { result_state := ckpt_result_state,
            state_checkpoint_output := ckpt_output,
            next_epoch_state := ckpt_next_epoch,
            verified_target_li := verified_target_li,
            epoch_change_li := epoch_change_li,
            txn_infos_with_proof := txn_output_list_with_proof.proof })

/-- `ChunkExecutorInner::update_ledger`: pop the oldest stage-one record
and the parent accumulator; check the chunk extends the accumulator with
zero overlap (`verify_extends_result` is the external proof check's answer;
a non-zero overlap hits the `assert_eq!` panic); finalize the ledger update
(`lu_output`, `to_discard`, `to_retry` are the external Checkpoint
Calculator's answers), requiring empty discard and retry sets; require the
finalized transaction infos to match those carried in the proof; select the
chunk-ending ledger info (`ledger_info_result`); and push the executed
chunk to stage two. -/
def ChunkExecutorInner.update_ledger
    (verify_extends_result : Except PipelineErr Nat)
    (lu_output : LedgerUpdateOutput)
    (to_discard to_retry : List Transaction)
    (ledger_info_result : Except PipelineErr (Option LedgerInfo))
    (q : ChunkCommitQueue) : Except PipelineErr ChunkCommitQueue :=
  match q.next_chunk_to_update_ledger with
  | .error e => .error e
  | .ok (_parent_accumulator, chunk, q1) =>
    match verify_extends_result with
    | .error e => .error e
    | .ok num_overlap =>
      if num_overlap ≠ 0 then
        .error .overlap_assert
      else if !to_discard.isEmpty then
        .error .unexpected_discard
      else if !to_retry.isEmpty then
        .error .unexpected_retry
      else if lu_output.transaction_infos ≠
          chunk.txn_infos_with_proof.transaction_infos then
        .error .txn_info_mismatch
      else
        match ledger_info_result with
        | .error e => .error e
        | .ok ledger_info_opt =>
          .ok (q1.save_ledger_update_output
            { result_state := chunk.result_state,
              ledger_info := ledger_info_opt,
              next_epoch_state := chunk.next_epoch_state,
              ledger_update_output := lu_output })

/-! ## Pipeline facade (`ChunkExecutor`), from the source

The facade holds a store handle and an optional inner instance. Only
`enqueue_chunk_by_execution` and `replay` call `maybe_initialize` first;
`enqueue_chunk_by_transaction_outputs`, `update_ledger`, `commit_chunk` and
`commit` go straight to `self.inner.read().as_ref().expect("not reset")`,
which panics (`not_reset_panic`) when the inner instance is absent. -/

structure ChunkExecutor where
  db : Db
  inner : Option ChunkCommitQueue
deriving Repr, DecidableEq

/-- `ChunkExecutorTrait::reset`: rebuild the inner instance from the
store's current persisted state. -/
def ChunkExecutor.reset (x : ChunkExecutor) : ChunkExecutor :=
  { x with inner := some (ChunkCommitQueue.new_from_db x.db) }

/-- `ChunkExecutorTrait::finish`: discard the inner instance. -/
def ChunkExecutor.finish (x : ChunkExecutor) : ChunkExecutor :=
  { x with inner := none }

/-- `ChunkExecutor::maybe_initialize`: create the inner instance from the
store if absent. -/
def ChunkExecutor.maybe_initialize (x : ChunkExecutor) : ChunkExecutor :=
  match x.inner with
  | none => x.reset
  | some _ => x

/-- Facade `enqueue_chunk_by_execution`: `maybe_initialize` first, then
forward to the inner instance. -/
def ChunkExecutor.enqueue_chunk_by_execution (verify_ok : Bool)
    (ckpt_result_state : StateDelta) (ckpt_next_epoch : Option EpochState)
    (ckpt_output : StateCheckpointOutput) (x : ChunkExecutor)
    (txn_list_with_proof : TransactionListWithProof)
    (verified_target_li : LedgerInfo) (epoch_change_li : Option LedgerInfo) :
    Except PipelineErr ChunkExecutor :=
  let x' := x.maybe_initialize
  match x'.inner with
  | none => .error .not_reset_panic
  | some q =>
    (ChunkExecutorInner.enqueue_chunk_by_execution verify_ok
      ckpt_result_state ckpt_next_epoch ckpt_output q txn_list_with_proof
      verified_target_li epoch_change_li).map fun q' =>
        { x' with inner := some q' }

/-- Facade `enqueue_chunk_by_transaction_outputs`: no `maybe_initialize` —
`expect("not reset")` panics when the inner instance is absent. -/
def ChunkExecutor.enqueue_chunk_by_transaction_outputs (verify_ok : Bool)
    (ckpt_result_state : StateDelta) (ckpt_next_epoch : Option EpochState)
    (ckpt_output : StateCheckpointOutput) (x : ChunkExecutor)
    (txn_output_list_with_proof : TransactionOutputListWithProof)
    (verified_target_li : LedgerInfo) (epoch_change_li : Option LedgerInfo) :
    Except PipelineErr ChunkExecutor :=
  match x.inner with
  | none => .error .not_reset_panic
  | some q =>
    (ChunkExecutorInner.enqueue_chunk_by_transaction_outputs verify_ok
      ckpt_result_state ckpt_next_epoch ckpt_output q
      txn_output_list_with_proof verified_target_li epoch_change_li).map
      fun q' => { x with inner := some q' }

/-- Facade `update_ledger`: no `maybe_initialize`. -/
def ChunkExecutor.update_ledger
    (verify_extends_result : Except PipelineErr Nat)
    (lu_output : LedgerUpdateOutput)
    (to_discard to_retry : List Transaction)
    (ledger_info_result : Except PipelineErr (Option LedgerInfo))
    (x : ChunkExecutor) : Except PipelineErr ChunkExecutor :=
  match x.inner with
  | none => .error .not_reset_panic
  | some q =>
    (ChunkExecutorInner.update_ledger verify_extends_result lu_output
      to_discard to_retry ledger_info_result q).map fun q' =>
        { x with inner := some q' }

/-- Facade `commit_chunk`: no `maybe_initialize`. -/
def ChunkExecutor.commit_chunk (save_fails : Bool) (x : ChunkExecutor) :
    Except PipelineErr (ChunkExecutor × ChunkCommitNotification) :=
  match x.inner with
  | none => .error .not_reset_panic
  | some q =>
    (ChunkExecutorInner.commit_chunk save_fails q).map fun p =>
      ({ x with inner := some p.1 }, p.2)

/-- Facade `replay` (`TransactionReplayer`): `maybe_initialize` first, then
run the replay engine against the inner queue's staged view and enqueue the
combined chunk directly to stage two. `conv` is the external packaging of
the replay engine's accumulated chunk into a stage-two executed chunk. -/
def ChunkExecutor.replay (env : ReplayEnv)
    (conv : RExecutedChunk → ExecutedChunk) (x : ChunkExecutor)
    (transactions : List Transaction)
    (transaction_infos : List TransactionInfo) (write_sets : List WriteSet)
    (event_vecs : List (List ContractEvent)) :
    Except PipelineErr ChunkExecutor :=
  let x' := x.maybe_initialize
  match x'.inner with
  | none => .error .not_reset_panic
  | some q =>
    match replay_impl env q.latest_txn_accumulator.num_leaves transactions
        transaction_infos write_sets event_vecs with
    | .error e => .error (.replay_failed e)
    | .ok (c, _) =>
      .ok { x' with inner := some (q.enqueue_chunk_to_commit_directly (conv c)) }

/-- Facade `commit` (`TransactionReplayer`): no `maybe_initialize`. -/
def ChunkExecutor.commit (save_fails : Bool) (x : ChunkExecutor) :
    Except PipelineErr (ChunkExecutor × ExecutedChunk) :=
  match x.inner with
  | none => .error .not_reset_panic
  | some q =>
    (ChunkExecutorInner.commit_chunk_impl save_fails q).map fun p =>
      ({ x with inner := some p.1 }, p.2)

/-! ## Commit ordering and persistence -/

/-- The stage-two chunks are version-contiguous starting at `v`: each
chunk's first version is the running watermark, and its result state's
next-version advances the watermark past its transactions. -/
def chunks_contiguous_from : Nat → List ExecutedChunk → Bool
  | _, [] => true
  | v, c :: rest =>
    c.ledger_update_output.first_version == v &&
    c.result_state.next_version == v + c.transactions_to_commit.length &&
    chunks_contiguous_from (v + c.transactions_to_commit.length) rest

/-- `n` successive `commit_chunk` calls (with a working store), collecting
the committed chunks in order; stops early on an error. -/
def run_commits (q : ChunkCommitQueue) :
    Nat → List ExecutedChunk × ChunkCommitQueue
  | 0 => ([], q)
  | n + 1 =>
    match ChunkExecutorInner.commit_chunk_impl false q with
    | .error _ => ([], q)
    | .ok (q', c) =>
      let p := run_commits q' n
      (c :: p.1, p.2)

/-- The watermark after committing `cs` starting from watermark `v`. -/
def end_version_from (v : Nat) (cs : List ExecutedChunk) : Nat :=
  cs.foldl (fun acc c => acc + c.transactions_to_commit.length) v

/-! ## Lemmas about the epoch partition -/

theorem find_epochs_loop_append (p1 p2 : List (Nat × List ContractEvent))
    (eb : Nat) (acc : List (Nat × Nat)) :
    find_epochs_loop (p1 ++ p2) eb acc =
      find_epochs_loop p2 (find_epochs_loop p1 eb acc).2
        (find_epochs_loop p1 eb acc).1 := by
  induction p1 generalizing eb acc with
  | nil => simp [find_epochs_loop]
  | cons hd tl ih =>
    obtain ⟨v, es⟩ := hd
    by_cases h : has_reconfig_event es = true <;>
      simp [find_epochs_loop, h, ih]

theorem find_epochs_loop_no_reconfig (pairs : List (Nat × List ContractEvent))
    (eb : Nat) (acc : List (Nat × Nat))
    (h : ∀ p ∈ pairs, has_reconfig_event p.2 = false) :
    find_epochs_loop pairs eb acc = (acc, eb) := by
  induction pairs generalizing eb acc with
  | nil => simp [find_epochs_loop]
  | cons hd tl ih =>
    have hhd : has_reconfig_event hd.2 = false := h hd (by simp)
    obtain ⟨v, es⟩ := hd
    simp only at hhd
    simp [find_epochs_loop, hhd]
    exact ih eb acc (fun p hp => h p (by simp [hp]))

theorem find_epochs_loop_acc (pairs : List (Nat × List ContractEvent))
    (eb : Nat) (acc : List (Nat × Nat)) :
    find_epochs_loop pairs eb acc =
      (acc ++ (find_epochs_loop pairs eb []).1,
        (find_epochs_loop pairs eb []).2) := by
  induction pairs generalizing eb acc with
  | nil => simp [find_epochs_loop]
  | cons hd tl ih =>
    obtain ⟨v, es⟩ := hd
    by_cases h : has_reconfig_event es = true
    · simp only [find_epochs_loop, h, if_true]
      rw [ih (v + 1) (acc ++ [(eb, v + 1)]), ih (v + 1) ([] ++ [(eb, v + 1)])]
      simp
    · simp only [find_epochs_loop, h, if_false, Bool.false_eq_true]
      exact ih eb acc

theorem tiles_append_last (l : List (Nat × Nat)) (a b c : Nat)
    (h : tiles a b l = true) (hbc : b < c) :
    tiles a c (l ++ [(b, c)]) = true := by
  induction l generalizing a with
  | nil =>
    simp only [tiles, beq_iff_eq] at h
    subst h
    simp [tiles, hbc]
  | cons hd tl ih =>
    obtain ⟨x, y⟩ := hd
    simp only [List.cons_append, tiles, Bool.and_eq_true, beq_iff_eq,
      decide_eq_true_eq] at h ⊢
    exact ⟨h.1, ih y h.2⟩

theorem find_epochs_loop_tiles (evs : List (List ContractEvent))
    (s eb : Nat) (h : eb ≤ s) :
    tiles eb (find_epochs_loop ((List.range' s evs.length).zip evs) eb []).2
        (find_epochs_loop ((List.range' s evs.length).zip evs) eb []).1 = true ∧
      eb ≤ (find_epochs_loop ((List.range' s evs.length).zip evs) eb []).2 ∧
      (find_epochs_loop ((List.range' s evs.length).zip evs) eb []).2 ≤
        s + evs.length := by
  induction evs generalizing s eb with
  | nil =>
    refine ⟨by simp [find_epochs_loop, tiles], by simp [find_epochs_loop], ?_⟩
    simpa [find_epochs_loop] using h
  | cons e rest ih =>
    simp only [List.length_cons, List.range'_succ, List.zip_cons_cons]
    by_cases hr : has_reconfig_event e = true
    · simp only [find_epochs_loop, hr, if_true]
      rw [find_epochs_loop_acc]
      obtain ⟨ht, hle, hub⟩ := ih (s + 1) (s + 1) (le_refl _)
      refine ⟨?_, by simp; omega, by simp; omega⟩
      simp only [List.nil_append, List.singleton_append, tiles,
        Bool.and_eq_true, beq_iff_eq, decide_eq_true_eq]
      exact ⟨⟨trivial, by omega⟩, ht⟩
    · simp only [find_epochs_loop, hr, Bool.false_eq_true, if_false]
      obtain ⟨ht, hle, hub⟩ := ih (s + 1) eb (by omega)
      exact ⟨ht, hle, by omega⟩

theorem find_epochs_loop_single_reconfig (e1 e2 : List (List ContractEvent))
    (er : List ContractEvent) (b : Nat)
    (h1 : ∀ e ∈ e1, has_reconfig_event e = false)
    (hr : has_reconfig_event er = true)
    (h2 : ∀ e ∈ e2, has_reconfig_event e = false) :
    find_epochs_loop
        ((List.range' b (e1 ++ er :: e2).length).zip (e1 ++ er :: e2)) b [] =
      ([(b, b + e1.length + 1)], b + e1.length + 1) := by
  have hsplit : List.range' b (e1 ++ er :: e2).length =
      List.range' b e1.length ++ List.range' (b + e1.length) (e2.length + 1) := by
    rw [List.range'_append_1]
    simp [Nat.add_comm]
  rw [hsplit, List.zip_append (by simp)]
  rw [find_epochs_loop_append]
  rw [find_epochs_loop_no_reconfig ((List.range' b e1.length).zip e1) b []
    (fun p hp => h1 p.2 (List.of_mem_zip hp).2)]
  simp only [List.range'_succ, List.zip_cons_cons, find_epochs_loop, hr, if_true]
  rw [find_epochs_loop_acc]
  rw [find_epochs_loop_no_reconfig
    (List.zipWith Prod.mk (List.range' (b + e1.length + 1) e2.length) e2)
    (b + e1.length + 1) [] (fun p hp => h2 p.2 (List.of_mem_zip hp).2)]
  simp

theorem find_epochs_tiles (b : Nat) (evs : List (List ContractEvent)) :
    tiles b (b + evs.length) (find_epochs b (b + evs.length) evs) = true := by
  obtain ⟨ht, hle, hub⟩ := find_epochs_loop_tiles evs b b (le_refl _)
  simp only [find_epochs, Nat.add_sub_cancel_left]
  by_cases hlt :
      (find_epochs_loop ((List.range' b evs.length).zip evs) b []).2 < b + evs.length
  · simp only [hlt, if_true]
    exact tiles_append_last _ _ _ _ ht hlt
  · simp only [hlt, if_false]
    have : (find_epochs_loop ((List.range' b evs.length).zip evs) b []).2 =
        b + evs.length := by omega
    rw [← this]
    exact ht

/-- C4: the claim as stated — a single reconfiguration event at version `V`
always yields the two epochs `[begin, V+1)` and `[V+1, end)` — fails when
`V` is the last version of the range: with `begin = 0`, `end = 1` and the
only version 0 carrying a reconfiguration event, the partition yields the
single epoch `[0, 1)` rather than `[0, 1)` and the empty `[1, 1)`. -/
theorem C4_counterexample :
    find_epochs 0 1 [[⟨true⟩]] = [(0, 1)] ∧
      find_epochs 0 1 [[⟨true⟩]] ≠ [(0, 1), (1, 1)] := by decide

/-- C4 (amended): if exactly one version `V = begin + e1.length` of the
range carries a reconfiguration event, the epoch partition yields the two
epochs `[begin, V+1)` and `[V+1, end)` when `V` is not the last version,
and the single epoch `[begin, V+1) = [begin, end)` when it is; in general
the partition yields disjoint, contiguous, nonempty sub-ranges exactly
covering the input range. -/
theorem C4_amended (e1 e2 : List (List ContractEvent))
    (er : List ContractEvent) (b : Nat)
    (h1 : ∀ e ∈ e1, has_reconfig_event e = false)
    (hr : has_reconfig_event er = true)
    (h2 : ∀ e ∈ e2, has_reconfig_event e = false) :
    (e2 ≠ [] →
      find_epochs b (b + (e1 ++ er :: e2).length) (e1 ++ er :: e2) =
        [(b, b + e1.length + 1),
          (b + e1.length + 1, b + (e1 ++ er :: e2).length)]) ∧
    (e2 = [] →
      find_epochs b (b + (e1 ++ er :: e2).length) (e1 ++ er :: e2) =
        [(b, b + e1.length + 1)]) ∧
    (∀ (b' : Nat) (evs : List (List ContractEvent)),
      tiles b' (b' + evs.length) (find_epochs b' (b' + evs.length) evs) = true) := by
  have hloop := find_epochs_loop_single_reconfig e1 e2 er b h1 hr h2
  refine ⟨?_, ?_, fun b' evs => find_epochs_tiles b' evs⟩
  · intro hne
    have hlen : e2.length ≠ 0 := by simpa using hne
    simp only [find_epochs, Nat.add_sub_cancel_left, hloop]
    have : b + e1.length + 1 < b + (e1 ++ er :: e2).length := by
      simp only [List.length_append, List.length_cons]
      omega
    rw [if_pos this]
    rfl
  · intro he
    subst he
    simp only [find_epochs, Nat.add_sub_cancel_left, hloop]
    have : ¬ (b + e1.length + 1 < b + (e1 ++ [er]).length) := by
      simp
      omega
    simp only [this, if_false]

theorem batch_ends_cons_skip (skip : Nat → Bool) (bb endV : Nat)
    (hlt : bb < endV) (hs : skip bb = true) :
    batch_ends_list skip bb endV = bb :: batch_ends_list skip (bb + 1) endV := by
  unfold batch_ends_list
  have hn : endV - bb = (endV - (bb + 1)) + 1 := by omega
  rw [hn, List.range'_succ]
  simp [hs]

theorem batch_ends_cons_noskip (skip : Nat → Bool) (bb endV : Nat)
    (hlt : bb < endV) (hs : skip bb = false) :
    batch_ends_list skip bb endV = batch_ends_list skip (bb + 1) endV := by
  unfold batch_ends_list
  have hn : endV - bb = (endV - (bb + 1)) + 1 := by omega
  rw [hn, List.range'_succ]
  simp [hs]

theorem batch_ends_head (skip : Nat → Bool) (endV : Nat) :
    ∀ (n bb : Nat) (be : Nat) (ends : List Nat), endV - bb = n → bb ≤ endV →
    batch_ends_list skip bb endV = be :: ends →
    bb ≤ be ∧ be ≤ endV ∧ ∀ v, bb ≤ v → v < be → skip v = false := by
  intro n
  induction n with
  | zero =>
    intro bb be ends hn hle hH
    have hbb : bb = endV := by omega
    subst hbb
    unfold batch_ends_list at hH
    simp at hH
    obtain ⟨h1, h2⟩ := hH
    exact ⟨by omega, by omega, fun v hv1 hv2 => by omega⟩
  | succ n ih =>
    intro bb be ends hn hle hH
    have hlt : bb < endV := by omega
    by_cases hs : skip bb = true
    · rw [batch_ends_cons_skip skip bb endV hlt hs] at hH
      obtain ⟨h1, h2⟩ := List.cons_eq_cons.mp hH
      subst h1
      exact ⟨le_refl _, by omega, fun v hv1 hv2 => by omega⟩
    · rw [batch_ends_cons_noskip skip bb endV hlt (by simpa using hs)] at hH
      obtain ⟨h1, h2, h3⟩ := ih (bb + 1) be ends (by omega) (by omega) hH
      refine ⟨by omega, h2, fun v hv1 hv2 => ?_⟩
      rcases Nat.eq_or_lt_of_le hv1 with heq | hlt'
      · subst heq; simpa using hs
      · exact h3 v (by omega) hv2

theorem batch_ends_shift (skip : Nat → Bool) (endV : Nat) :
    ∀ (k bb nb : Nat), nb - bb = k → bb ≤ nb → nb ≤ endV →
    (∀ v, bb ≤ v → v < nb → skip v = false) →
    batch_ends_list skip nb endV = batch_ends_list skip bb endV := by
  intro k
  induction k with
  | zero =>
    intro bb nb h1 h2 _ _
    have : bb = nb := by omega
    subst this; rfl
  | succ k ih =>
    intro bb nb h1 h2 h3 h4
    have hlt : bb < nb := by omega
    rw [batch_ends_cons_noskip skip bb endV (by omega) (h4 bb (le_refl _) hlt)]
    exact ih (bb + 1) nb (by omega) (by omega) h3 (fun v hv1 hv2 => h4 v (by omega) hv2)

theorem find_mismatch_none_of (mis : Nat → Bool) :
    ∀ (n b : Nat), (∀ v, b ≤ v → v < b + n → mis v = false) →
    find_mismatch mis b n = none := by
  intro n
  induction n with
  | zero => intro b _; rfl
  | succ n ih =>
    intro b h
    unfold find_mismatch
    rw [h b (le_refl _) (by omega)]
    simp only [Bool.false_eq_true, if_false]
    exact ih (b + 1) (fun v hv1 hv2 => h v (by omega) (by omega))

theorem find_mismatch_some_spec (mis : Nat → Bool) :
    ∀ (n b v : Nat), find_mismatch mis b n = some v →
    b ≤ v ∧ v < b + n ∧ mis v = true ∧ ∀ u, b ≤ u → u < v → mis u = false := by
  intro n
  induction n with
  | zero => intro b v h; simp [find_mismatch] at h
  | succ n ih =>
    intro b v h
    unfold find_mismatch at h
    by_cases hb : mis b = true
    · rw [hb] at h
      simp at h
      subst h
      exact ⟨le_refl _, by omega, hb, fun u hu1 hu2 => by omega⟩
    · rw [Bool.of_not_eq_true hb] at h
      simp only [Bool.false_eq_true, if_false] at h
      obtain ⟨h1, h2, h3, h4⟩ := ih (b + 1) v h
      refine ⟨by omega, by omega, h3, fun u hu1 hu2 => ?_⟩
      rcases Nat.eq_or_lt_of_le hu1 with heq | hlt'
      · subst heq; simpa using hb
      · exact h4 u (by omega) hu2

theorem find_mismatch_eq_some_of (mis : Nat → Bool) :
    ∀ (n b v : Nat), b ≤ v → v < b + n → mis v = true →
    (∀ u, b ≤ u → u < v → mis u = false) →
    find_mismatch mis b n = some v := by
  intro n
  induction n with
  | zero => intro b v h1 h2; omega
  | succ n ih =>
    intro b v h1 h2 h3 h4
    unfold find_mismatch
    rcases Nat.eq_or_lt_of_le h1 with heq | hlt'
    · subst heq; rw [h3]; rfl
    · rw [h4 b (le_refl _) hlt']
      simp only [Bool.false_eq_true, if_false]
      exact ih (b + 1) v (by omega) (by omega) h3 (fun u hu1 hu2 => h4 u (by omega) hu2)

/-- Draining a prefix commutes with building the recorded outputs. -/
theorem recorded_outputs_split (n : Nat) :
    ∀ (l1 : List Transaction) (l2 : List TransactionInfo) (l3 : List WriteSet)
      (l4 : List (List ContractEvent)),
    recorded_outputs l1 l2 l3 l4 =
      recorded_outputs (l1.take n) (l2.take n) (l3.take n) (l4.take n) ++
        recorded_outputs (l1.drop n) (l2.drop n) (l3.drop n) (l4.drop n) := by
  induction n with
  | zero => intro l1 l2 l3 l4; simp [recorded_outputs]
  | succ n ih =>
    intro l1 l2 l3 l4
    cases l1 with
    | nil => simp [recorded_outputs]
    | cons a l1 =>
      cases l2 with
      | nil => simp [recorded_outputs]
      | cons b l2 =>
        cases l3 with
        | nil => simp [recorded_outputs]
        | cons c l3 =>
          cases l4 with
          | nil => simp [recorded_outputs]
          | cons d l4 =>
            simp only [List.take_succ_cons, List.drop_succ_cons, recorded_outputs,
              List.cons_append]
            rw [← ih l1 l2 l3 l4]

theorem remove_and_apply_applied (st : LoopState) (b e : Nat) :
    (remove_and_apply st b e).applied = st.applied ++ [(b, e)] := rfl

theorem remove_and_apply_verify_calls (st : LoopState) (b e : Nat) :
    (remove_and_apply st b e).verify_calls = st.verify_calls := rfl

theorem remove_and_apply_seen_error (st : LoopState) (b e : Nat) :
    (remove_and_apply st b e).seen_error = st.seen_error := rfl

theorem remove_and_apply_transactions (st : LoopState) (b e : Nat) :
    (remove_and_apply st b e).transactions = st.transactions.drop (e - b) := rfl

theorem remove_and_apply_transaction_infos (st : LoopState) (b e : Nat) :
    (remove_and_apply st b e).transaction_infos =
      st.transaction_infos.drop (e - b) := rfl

theorem remove_and_apply_write_sets (st : LoopState) (b e : Nat) :
    (remove_and_apply st b e).write_sets = st.write_sets.drop (e - b) := rfl

theorem remove_and_apply_event_vecs (st : LoopState) (b e : Nat) :
    (remove_and_apply st b e).event_vecs = st.event_vecs.drop (e - b) := rfl

theorem remove_and_apply_executed_chunk (st : LoopState) (b e : Nat) :
    (remove_and_apply st b e).executed_chunk =
      some ⟨chunk_first st b,
        chunk_outs st ++
          recorded_outputs (st.transactions.take (e - b))
            (st.transaction_infos.take (e - b)) (st.write_sets.take (e - b))
            (st.event_vecs.take (e - b))⟩ := by
  cases h : st.executed_chunk <;>
    simp [remove_and_apply, chunk_first, chunk_outs, RExecutedChunk.combine, h]

theorem LoopSpec_of_done (env : ReplayEnv) (endV : Nat) (st : LoopState) :
    LoopSpec env endV endV st st := by
  refine ⟨⟨[], by simp, by simp [tiles]⟩, fun v _ h1 h2 => by omega,
    fun p hp => Or.inl hp, by simp, by simp, by simp, by simp,
    fun _ => rfl, fun h => by omega⟩

theorem LoopSpec_step (env : ReplayEnv) (endV bb nb : Nat)
    (st stm st' : LoopState) (hlt : bb < nb) (hnb : nb ≤ endV)
    (h1 : stm.applied = st.applied ++ [(bb, nb)])
    (h2 : ∃ V, stm.verify_calls = st.verify_calls ++ V ∧
      ∀ p ∈ V, ∀ v, env.txns_to_skip v = true → ¬(p.1 ≤ v ∧ v < p.2))
    (h3 : stm.transactions = st.transactions.drop (nb - bb))
    (h4 : stm.transaction_infos = st.transaction_infos.drop (nb - bb))
    (h5 : stm.write_sets = st.write_sets.drop (nb - bb))
    (h6 : stm.event_vecs = st.event_vecs.drop (nb - bb))
    (h7 : stm.executed_chunk = some ⟨chunk_first st bb,
      chunk_outs st ++
        recorded_outputs (st.transactions.take (nb - bb))
          (st.transaction_infos.take (nb - bb)) (st.write_sets.take (nb - bb))
          (st.event_vecs.take (nb - bb))⟩)
    (h8 : ∀ v, env.txns_to_skip v = true → bb ≤ v → v < nb →
      (v, v + 1) ∈ stm.applied)
    (hspec : LoopSpec env endV nb stm st') :
    LoopSpec env endV bb st st' := by
  obtain ⟨⟨B', hB1, hB2⟩, hcov, hver, hd1, hd2, hd3, hd4, hdone, hchunk⟩ := hspec
  have hdd : ∀ {α : Type} (l : List α),
      (l.drop (nb - bb)).drop (endV - nb) = l.drop (endV - bb) := by
    intro α l
    rw [List.drop_drop]
    congr 1
    omega
  refine ⟨?_, ?_, ?_, ?_, ?_, ?_, ?_, ?_, ?_⟩
  · refine ⟨(bb, nb) :: B', ?_, ?_⟩
    · rw [hB1, h1, List.append_assoc]
      rfl
    · simp only [tiles, Bool.and_eq_true, beq_iff_eq, decide_eq_true_eq]
      exact ⟨⟨trivial, hlt⟩, hB2⟩
  · intro v hv hv1 hv2
    by_cases hvnb : v < nb
    · have := h8 v hv hv1 hvnb
      rw [hB1]
      exact List.mem_append_left _ this
    · exact hcov v hv (by omega) hv2
  · intro p hp
    rcases hver p hp with hin | hfree
    · obtain ⟨V, hV1, hV2⟩ := h2
      rw [hV1] at hin
      rcases List.mem_append.mp hin with h | h
      · exact Or.inl h
      · exact Or.inr (hV2 p h)
    · exact Or.inr hfree
  · rw [hd1, h3, hdd]
  · rw [hd2, h4, hdd]
  · rw [hd3, h5, hdd]
  · rw [hd4, h6, hdd]
  · intro h; omega
  · intro _
    rcases Nat.eq_or_lt_of_le hnb with heq | hlt'
    · subst heq
      have hst : st' = stm := hdone rfl
      subst hst
      refine ⟨_, h7, rfl, ?_⟩
      simp
    · obtain ⟨c', hc1, hc2, hc3⟩ := hchunk hlt'
      refine ⟨c', hc1, ?_, ?_⟩
      · rw [hc2, chunk_first, h7]
      · have hout : chunk_outs stm = chunk_outs st ++
            recorded_outputs (st.transactions.take (nb - bb))
              (st.transaction_infos.take (nb - bb))
              (st.write_sets.take (nb - bb)) (st.event_vecs.take (nb - bb)) := by
          rw [chunk_outs, h7]
        have hsplit : ∀ {α : Type} (l : List α),
            (l.take (endV - bb)).take (nb - bb) = l.take (nb - bb) := by
          intro α l
          rw [List.take_take]
          congr 1
          omega
        have hsplit2 : ∀ {α : Type} (l : List α),
            (l.take (endV - bb)).drop (nb - bb) =
              (l.drop (nb - bb)).take (endV - nb) := by
          intro α l
          rw [List.drop_take]
          congr 1
          omega
        rw [hc3, hout, h3, h4, h5, h6, List.append_assoc]
        congr 1
        rw [recorded_outputs_split (nb - bb)
          (st.transactions.take (endV - bb)) (st.transaction_infos.take (endV - bb))
          (st.write_sets.take (endV - bb)) (st.event_vecs.take (endV - bb))]
        rw [hsplit, hsplit, hsplit, hsplit, hsplit2, hsplit2, hsplit2, hsplit2]

theorem replay_epoch_loop_spec (env : ReplayEnv) (endV : Nat) :
    ∀ (fuel bb be : Nat) (ends : List Nat) (st st' : LoopState),
    bb ≤ endV →
    batch_ends_list env.txns_to_skip bb endV = be :: ends →
    replay_epoch_loop env endV fuel bb be ends st = .ok st' →
    LoopSpec env endV bb st st' := by
  intro fuel
  induction fuel with
  | zero =>
    intro bb be ends st st' _ _ hok
    simp [replay_epoch_loop] at hok
  | succ fuel ih =>
    intro bb be ends st st' hle hH hok
    unfold replay_epoch_loop at hok
    by_cases hlt : bb < endV
    · rw [if_pos hlt] at hok
      by_cases heq : bb = be
      · rw [if_pos heq] at hok
        -- the skipped-version branch
        have hs : env.txns_to_skip bb = true := by
          by_contra hs
          have hshift := batch_ends_cons_noskip env.txns_to_skip bb endV hlt
            (by simpa using hs)
          rw [hshift] at hH
          obtain ⟨hb1, _, _⟩ := batch_ends_head env.txns_to_skip endV
            (endV - (bb + 1)) (bb + 1) be ends rfl (by omega) hH
          omega
        have hcons := batch_ends_cons_skip env.txns_to_skip bb endV hlt hs
        rw [hH] at hcons
        have hends : ends = batch_ends_list env.txns_to_skip (bb + 1) endV := by
          have := List.cons_eq_cons.mp hcons.symm
          exact this.2.symm
        cases ends with
        | nil =>
          simp at hok
        | cons next rest =>
          have hspec := ih (bb + 1) next rest (remove_and_apply st bb (bb + 1))
            st' (by omega) hends.symm hok
          refine LoopSpec_step env endV bb (bb + 1) st _ st' (by omega) (by omega)
            (remove_and_apply_applied st bb (bb + 1))
            ⟨[], by simp [remove_and_apply_verify_calls], by simp⟩
            (remove_and_apply_transactions st bb (bb + 1))
            (remove_and_apply_transaction_infos st bb (bb + 1))
            (remove_and_apply_write_sets st bb (bb + 1))
            (remove_and_apply_event_vecs st bb (bb + 1))
            (remove_and_apply_executed_chunk st bb (bb + 1)) ?_ hspec
          intro v hv hv1 hv2
          have : v = bb := by omega
          subst this
          rw [remove_and_apply_applied]
          exact List.mem_append_right _ (by simp)
      · rw [if_neg heq] at hok
        obtain ⟨hb1, hb2, hnoskip⟩ := batch_ends_head env.txns_to_skip endV
          (endV - bb) bb be ends rfl hle hH
        have hblt : bb < be := by omega
        by_cases hv : env.should_verify = true
        · rw [hv] at hok
          simp only [if_true] at hok
          cases hfm : find_mismatch env.mismatch bb (be - bb) with
          | none =>
            rw [verify_execution, hfm] at hok
            simp only at hok
            have hH' : batch_ends_list env.txns_to_skip be endV = be :: ends := by
              rw [batch_ends_shift env.txns_to_skip endV (be - bb) bb be rfl
                (by omega) hb2 hnoskip]
              exact hH
            have hspec := ih be be ends _ st' hb2 hH' hok
            refine LoopSpec_step env endV bb be st _ st' hblt hb2
              (by rw [remove_and_apply_applied])
              ⟨[(bb, be)], by rw [remove_and_apply_verify_calls], ?_⟩
              (by rw [remove_and_apply_transactions])
              (by rw [remove_and_apply_transaction_infos])
              (by rw [remove_and_apply_write_sets])
              (by rw [remove_and_apply_event_vecs])
              (by rw [remove_and_apply_executed_chunk] <;> rfl)
              ?_ hspec
            · intro p hp v hsv hrange
              have : p = (bb, be) := by simpa using hp
              subst this
              have := hnoskip v hrange.1 hrange.2
              rw [this] at hsv
              exact Bool.false_ne_true hsv
            · intro v hsv hv1 hv2
              have := hnoskip v hv1 hv2
              rw [this] at hsv
              exact absurd hsv Bool.false_ne_true
          | some w =>
            obtain ⟨hw1, hw2, hw3, hw4⟩ := find_mismatch_some_spec env.mismatch
              (be - bb) bb w hfm
            have hwlt : w < be := by omega
            by_cases hl : env.lazy_quit = true
            · rw [verify_execution, hfm, hl] at hok
              simp only [if_true] at hok
              have hH' : batch_ends_list env.txns_to_skip (w + 1) endV =
                  be :: ends := by
                rw [batch_ends_shift env.txns_to_skip endV (w + 1 - bb) bb (w + 1)
                  rfl (by omega) (by omega)
                  (fun u hu1 hu2 => hnoskip u hu1 (by omega))]
                exact hH
              have hspec := ih (w + 1) be ends _ st' (by omega) hH' hok
              refine LoopSpec_step env endV bb (w + 1) st _ st' (by omega)
                (by omega)
                (by rw [remove_and_apply_applied])
                ⟨[(bb, be)], by rw [remove_and_apply_verify_calls], ?_⟩
                (by rw [remove_and_apply_transactions])
                (by rw [remove_and_apply_transaction_infos])
                (by rw [remove_and_apply_write_sets])
                (by rw [remove_and_apply_event_vecs])
                (by rw [remove_and_apply_executed_chunk] <;> rfl)
                ?_ hspec
              · intro p hp v hsv hrange
                have : p = (bb, be) := by simpa using hp
                subst this
                have := hnoskip v hrange.1 hrange.2
                rw [this] at hsv
                exact Bool.false_ne_true hsv
              · intro v hsv hv1 hv2
                have := hnoskip v hv1 (by omega)
                rw [this] at hsv
                exact absurd hsv Bool.false_ne_true
            · rw [Bool.not_eq_true] at hl
              rw [verify_execution, hfm, hl] at hok
              simp at hok
        · simp only [hv] at hok
          simp only [Bool.false_eq_true, if_false] at hok
          have hH' : batch_ends_list env.txns_to_skip be endV = be :: ends := by
            rw [batch_ends_shift env.txns_to_skip endV (be - bb) bb be rfl
              (by omega) hb2 hnoskip]
            exact hH
          have hspec := ih be be ends _ st' hb2 hH' hok
          refine LoopSpec_step env endV bb be st _ st' hblt hb2
            (by rw [remove_and_apply_applied])
            ⟨[], by simp [remove_and_apply_verify_calls], by simp⟩
            (by rw [remove_and_apply_transactions])
            (by rw [remove_and_apply_transaction_infos])
            (by rw [remove_and_apply_write_sets])
            (by rw [remove_and_apply_event_vecs])
            (by rw [remove_and_apply_executed_chunk] <;> rfl)
            ?_ hspec
          intro v hsv hv1 hv2
          have := hnoskip v hv1 hv2
          rw [this] at hsv
          exact absurd hsv Bool.false_ne_true
    · rw [if_neg hlt] at hok
      have : st' = st := by
        simpa using hok.symm
      subst this
      have hbe2 : bb = endV := by omega
      rw [hbe2]
      exact LoopSpec_of_done env endV _

theorem tiles_le (l : List (Nat × Nat)) : ∀ (b e : Nat), tiles b e l = true → b ≤ e := by
  induction l with
  | nil =>
    intro b e h
    simp only [tiles, beq_iff_eq] at h
    omega
  | cons hd tl ih =>
    intro b e h
    obtain ⟨x, y⟩ := hd
    simp only [tiles, Bool.and_eq_true, beq_iff_eq, decide_eq_true_eq] at h
    have := ih y e h.2
    omega

theorem tiles_append (B1 : List (Nat × Nat)) :
    ∀ (B2 : List (Nat × Nat)) (b m e : Nat), tiles b m B1 = true →
    tiles m e B2 = true → tiles b e (B1 ++ B2) = true := by
  induction B1 with
  | nil =>
    intro B2 b m e h1 h2
    simp only [tiles, beq_iff_eq] at h1
    subst h1
    simpa using h2
  | cons hd tl ih =>
    intro B2 b m e h1 h2
    obtain ⟨x, y⟩ := hd
    simp only [tiles, Bool.and_eq_true, beq_iff_eq, decide_eq_true_eq,
      List.cons_append] at h1 ⊢
    exact ⟨h1.1, ih B2 y m e h1.2 h2⟩

theorem LoopSpec_trans (env : ReplayEnv) (b m e : Nat)
    (st stm st' : LoopState) (hbm : b ≤ m) (hme : m ≤ e)
    (h1 : LoopSpec env m b st stm) (h2 : LoopSpec env e m stm st') :
    LoopSpec env e b st st' := by
  obtain ⟨⟨B1, hB11, hB12⟩, hcov1, hver1, ha1, hb1, hc1, hd1, hdone1, hchunk1⟩ := h1
  obtain ⟨⟨B2, hB21, hB22⟩, hcov2, hver2, ha2, hb2, hc2, hd2, hdone2, hchunk2⟩ := h2
  have hdd : ∀ {α : Type} (l : List α),
      (l.drop (m - b)).drop (e - m) = l.drop (e - b) := by
    intro α l
    rw [List.drop_drop]
    congr 1
    omega
  refine ⟨?_, ?_, ?_, ?_, ?_, ?_, ?_, ?_, ?_⟩
  · exact ⟨B1 ++ B2, by rw [hB21, hB11, List.append_assoc],
      tiles_append B1 B2 b m e hB12 hB22⟩
  · intro v hv hv1 hv2
    by_cases hvm : v < m
    · rw [hB21]
      exact List.mem_append_left _ (hcov1 v hv hv1 hvm)
    · exact hcov2 v hv (by omega) hv2
  · intro p hp
    rcases hver2 p hp with hin | hfree
    · exact hver1 p hin
    · exact Or.inr hfree
  · rw [ha2, ha1, hdd]
  · rw [hb2, hb1, hdd]
  · rw [hc2, hc1, hdd]
  · rw [hd2, hd1, hdd]
  · intro hbe
    have hm1 : b = m := by omega
    have hm2 : m = e := by omega
    subst hm1
    rw [hdone2 hm2, hdone1 rfl]
  · intro hlt
    rcases Nat.eq_or_lt_of_le hme with heq | hlt'
    · have hst : st' = stm := hdone2 heq
      subst hst
      obtain ⟨c', hc1', hc2', hc3'⟩ := hchunk1 (by omega)
      refine ⟨c', hc1', hc2', ?_⟩
      rw [hc3']
      subst heq
      rfl
    · obtain ⟨c', hc1', hc2', hc3'⟩ := hchunk2 hlt'
      rcases Nat.eq_or_lt_of_le hbm with heq | hblt
      · have hst : stm = st := hdone1 heq
        subst hst
        subst heq
        exact ⟨c', hc1', hc2', hc3'⟩
      · obtain ⟨cm, hm1', hm2', hm3'⟩ := hchunk1 hblt
        refine ⟨c', hc1', ?_, ?_⟩
        · have hcf : chunk_first stm m = cm.first_version := by
            rw [chunk_first, hm1']
          rw [hc2', hcf]
          exact hm2'
        · have hout : chunk_outs stm = cm.txns_and_outputs := by
            rw [chunk_outs, hm1']
          have hsplit : ∀ {α : Type} (l : List α),
              (l.take (e - b)).take (m - b) = l.take (m - b) := by
            intro α l
            rw [List.take_take]
            congr 1
            omega
          have hsplit2 : ∀ {α : Type} (l : List α),
              (l.take (e - b)).drop (m - b) = (l.drop (m - b)).take (e - m) := by
            intro α l
            rw [List.drop_take]
            congr 1
            omega
          rw [hc3', hout, hm3', ha1, hb1, hc1, hd1, List.append_assoc]
          congr 1
          rw [recorded_outputs_split (m - b) (st.transactions.take (e - b))
            (st.transaction_infos.take (e - b)) (st.write_sets.take (e - b))
            (st.event_vecs.take (e - b))]
          rw [hsplit, hsplit, hsplit, hsplit, hsplit2, hsplit2, hsplit2, hsplit2]

theorem remove_and_replay_epoch_spec (env : ReplayEnv) (b e : Nat)
    (st st' : LoopState) (hle : b ≤ e)
    (hok : remove_and_replay_epoch env b e st = .ok st') :
    LoopSpec env e b st st' := by
  unfold remove_and_replay_epoch at hok
  cases hB : batch_ends_list env.txns_to_skip b e with
  | nil =>
    rw [hB] at hok
    simp at hok
  | cons be rest =>
    rw [hB] at hok
    exact replay_epoch_loop_spec env e _ b be rest st st' hle hB hok

theorem replay_epochs_spec (env : ReplayEnv) :
    ∀ (epochs : List (Nat × Nat)) (cur endAll : Nat) (st st' : LoopState),
    tiles cur endAll epochs = true →
    replay_epochs env epochs st = .ok st' →
    LoopSpec env endAll cur st st' := by
  intro epochs
  induction epochs with
  | nil =>
    intro cur endAll st st' ht hok
    simp only [replay_epochs] at hok
    have : st' = st := by simpa using hok.symm
    subst this
    simp only [tiles, beq_iff_eq] at ht
    rw [ht]
    exact LoopSpec_of_done env endAll _
  | cons hd rest ih =>
    intro cur endAll st st' ht hok
    obtain ⟨b, e⟩ := hd
    simp only [tiles, Bool.and_eq_true, beq_iff_eq, decide_eq_true_eq] at ht
    obtain ⟨⟨hb, hlt⟩, htl⟩ := ht
    subst hb
    simp only [replay_epochs] at hok
    cases hmid : remove_and_replay_epoch env b e st with
    | error err => rw [hmid] at hok; simp at hok
    | ok stm =>
      rw [hmid] at hok
      have spec1 := remove_and_replay_epoch_spec env b e st stm (by omega) hmid
      have spec2 := ih e endAll stm st' htl hok
      exact LoopSpec_trans env b e endAll st stm st' (by omega)
        (tiles_le rest e endAll htl) spec1 spec2

theorem recorded_outputs_length (l1 : List Transaction) :
    ∀ (l2 : List TransactionInfo) (l3 : List WriteSet)
      (l4 : List (List ContractEvent)),
    l2.length = l1.length → l3.length = l1.length → l4.length = l1.length →
    (recorded_outputs l1 l2 l3 l4).length = l1.length := by
  induction l1 with
  | nil => intro l2 l3 l4 _ _ _; simp [recorded_outputs]
  | cons a l1 ih =>
    intro l2 l3 l4 h2 h3 h4
    cases l2 with
    | nil => simp at h2
    | cons b l2 =>
      cases l3 with
      | nil => simp at h3
      | cons c l3 =>
        cases l4 with
        | nil => simp at h4
        | cons d l4 =>
          simp only [recorded_outputs, List.length_cons]
          rw [ih l2 l3 l4 (by simpa using h2) (by simpa using h3)
            (by simpa using h4)]

theorem recorded_outputs_getElem (l1 : List Transaction) :
    ∀ (l2 : List TransactionInfo) (l3 : List WriteSet)
      (l4 : List (List ContractEvent)) (i : Nat) (txn : Transaction)
      (info : TransactionInfo) (ws : WriteSet) (evs : List ContractEvent),
    l1[i]? = some txn → l2[i]? = some info → l3[i]? = some ws →
    l4[i]? = some evs →
    (recorded_outputs l1 l2 l3 l4)[i]? =
      some (txn, ⟨ws, evs, info.gas_used, TransactionStatus.Keep info.status⟩) := by
  induction l1 with
  | nil => intro l2 l3 l4 i txn info ws evs h1; simp at h1
  | cons a l1 ih =>
    intro l2 l3 l4 i txn info ws evs h1 h2 h3 h4
    cases l2 with
    | nil => simp at h2
    | cons b l2 =>
      cases l3 with
      | nil => simp at h3
      | cons c l3 =>
        cases l4 with
        | nil => simp at h4
        | cons d l4 =>
          cases i with
          | zero =>
            simp only [List.getElem?_cons_zero, Option.some.injEq] at h1 h2 h3 h4
            subst h1; subst h2; subst h3; subst h4
            simp [recorded_outputs]
          | succ i =>
            simp only [List.getElem?_cons_succ] at h1 h2 h3 h4
            simp only [recorded_outputs, List.getElem?_cons_succ]
            exact ih l2 l3 l4 i txn info ws evs h1 h2 h3 h4

/-- Net effect of a successful `replay` call: the loop-state specification
over the whole chunk range, the accumulated chunk it returns, and the fact
that the input must have been non-empty. -/
theorem replay_impl_spec (env : ReplayEnv) (chunk_begin : Nat)
    (transactions : List Transaction)
    (transaction_infos : List TransactionInfo) (write_sets : List WriteSet)
    (event_vecs : List (List ContractEvent)) (c : RExecutedChunk)
    (st' : LoopState) (hlen : event_vecs.length = transactions.length)
    (hok : replay_impl env chunk_begin transactions transaction_infos
      write_sets event_vecs = .ok (c, st')) :
    LoopSpec env (chunk_begin + transactions.length) chunk_begin
      ⟨transactions, transaction_infos, write_sets, event_vecs, none, false,
        [], []⟩ st' ∧
    st'.executed_chunk = some c ∧ 0 < transactions.length := by
  have htiles : tiles chunk_begin (chunk_begin + transactions.length)
      (find_epochs chunk_begin (chunk_begin + transactions.length)
        event_vecs) = true := by
    have := find_epochs_tiles chunk_begin event_vecs
    rw [hlen] at this
    exact this
  simp only [replay_impl] at hok
  cases hrep : replay_epochs env
      (find_epochs chunk_begin (chunk_begin + transactions.length) event_vecs)
      ⟨transactions, transaction_infos, write_sets, event_vecs, none, false,
        [], []⟩ with
  | error err => rw [hrep] at hok; simp at hok
  | ok stf =>
    rw [hrep] at hok
    cases hc : stf.executed_chunk with
    | none => simp [hc] at hok
    | some c0 =>
      simp only [hc, Except.ok.injEq, Prod.mk.injEq] at hok
      obtain ⟨hc1, hc2⟩ := hok
      subst hc2
      have spec := replay_epochs_spec env _ chunk_begin
        (chunk_begin + transactions.length) _ stf htiles hrep
      refine ⟨spec, by rw [hc, hc1], ?_⟩
      by_contra hz
      have hz0 : transactions.length = 0 := by omega
      have hdone := spec.2.2.2.2.2.2.2.1 (by omega)
      rw [hdone] at hc
      simp at hc

/-- C9: calling replay with an empty transactions list (and correspondingly
empty info / write-set / event lists) produces no epoch, accumulates no
chunk, and fails via the `expect("Nothing to commit.")` panic when it tries
to enqueue the result — neither a descriptive error nor a no-op success. -/
theorem C9_empty_replay (env : ReplayEnv) (chunk_begin : Nat) :
    find_epochs chunk_begin chunk_begin [] = [] ∧
    replay_impl env chunk_begin [] [] [] [] =
      .error ReplayErr.expect_nothing_to_commit := by
  constructor
  · simp [find_epochs, find_epochs_loop]
  · simp [replay_impl, find_epochs, find_epochs_loop, replay_epochs]

/-- C5: in a successful replay, every skip-set version inside the replayed
range is applied as an isolated single-transaction batch `(v, v+1)`, and
`verify_execution` is only ever invoked on version ranges containing no
skip-set version. -/
theorem C5_skip_versions_isolated (env : ReplayEnv) (chunk_begin : Nat)
    (transactions : List Transaction)
    (transaction_infos : List TransactionInfo) (write_sets : List WriteSet)
    (event_vecs : List (List ContractEvent)) (c : RExecutedChunk)
    (st' : LoopState) (hlen : event_vecs.length = transactions.length)
    (hok : replay_impl env chunk_begin transactions transaction_infos
      write_sets event_vecs = .ok (c, st')) :
    (∀ v, env.txns_to_skip v = true → chunk_begin ≤ v →
      v < chunk_begin + transactions.length → (v, v + 1) ∈ st'.applied) ∧
    (∀ p ∈ st'.verify_calls, ∀ v, env.txns_to_skip v = true →
      ¬(p.1 ≤ v ∧ v < p.2)) := by
  obtain ⟨spec, _, _⟩ := replay_impl_spec env chunk_begin transactions
    transaction_infos write_sets event_vecs c st' hlen hok
  refine ⟨fun v hv h1 h2 => spec.2.1 v hv h1 h2, fun p hp v hv => ?_⟩
  rcases spec.2.2.1 p hp with hin | hfree
  · exact absurd hin (List.not_mem_nil p)
  · exact hfree v hv

/-- C6: at the first mismatching version `v` of a verified batch, strict
mode fails immediately with that version's error, while lazy mode marks the
seen-error flag, returns `v + 1`, and the replay loop resumes with the
batch `[begin, v+1)` applied and comparison restarting exactly one version
after the mismatch — the mismatching version is neither rolled back nor
retried. -/
theorem C6_mismatch_strict_fails_lazy_resumes (env : ReplayEnv) (seen : Bool)
    (b e v : Nat) (hb : b ≤ v) (hv : v < e) (hm : env.mismatch v = true)
    (hfirst : ∀ u, b ≤ u → u < v → env.mismatch u = false) :
    (env.lazy_quit = false →
      verify_execution env seen b e = .error (ReplayErr.mismatch v)) ∧
    (env.lazy_quit = true →
      verify_execution env seen b e = .ok (v + 1, true)) ∧
    (env.lazy_quit = true → env.should_verify = true →
      ∀ (endV fuel : Nat) (ends : List Nat) (st : LoopState),
        b < endV → b ≠ e →
        replay_epoch_loop env endV (fuel + 1) b e ends st =
          replay_epoch_loop env endV fuel (v + 1) e ends
            (remove_and_apply
              { st with
                  seen_error := true,
                  verify_calls := st.verify_calls ++ [(b, e)] } b (v + 1))) := by
  have hfm : find_mismatch env.mismatch b (e - b) = some v :=
    find_mismatch_eq_some_of env.mismatch (e - b) b v hb (by omega) hm hfirst
  refine ⟨?_, ?_, ?_⟩
  · intro hl
    rw [verify_execution, hfm, hl]
    rfl
  · intro hl
    rw [verify_execution, hfm, hl]
    rfl
  · intro hl hsv endV fuel ends st hlt hne
    conv_lhs =>
      rw [replay_epoch_loop]
      rw [if_pos hlt, if_neg hne]
      simp only [hsv, if_true]
      rw [verify_execution, hfm, hl]
      simp only [if_true]

/-- C10: a successful lazy-mode replay covers the entire input version
range: the accumulated chunk starts at the chunk-begin version, its
(transaction, output) pairs are exactly the recorded outputs of all input
versions in order — every version, including each mismatching one, is
applied with its recorded write set, events, gas and `Keep` status. -/
theorem C10_lazy_replay_full_coverage (env : ReplayEnv) (chunk_begin : Nat)
    (transactions : List Transaction)
    (transaction_infos : List TransactionInfo) (write_sets : List WriteSet)
    (event_vecs : List (List ContractEvent)) (c : RExecutedChunk)
    (st' : LoopState) (hlazy : env.lazy_quit = true)
    (hlen2 : transaction_infos.length = transactions.length)
    (hlen3 : write_sets.length = transactions.length)
    (hlen4 : event_vecs.length = transactions.length)
    (hok : replay_impl env chunk_begin transactions transaction_infos
      write_sets event_vecs = .ok (c, st')) :
    c.first_version = chunk_begin ∧
    c.txns_and_outputs =
      recorded_outputs transactions transaction_infos write_sets event_vecs ∧
    c.txns_and_outputs.length = transactions.length ∧
    (∀ (i : Nat) (txn : Transaction) (info : TransactionInfo) (ws : WriteSet)
      (evs : List ContractEvent),
      transactions[i]? = some txn → transaction_infos[i]? = some info →
      write_sets[i]? = some ws → event_vecs[i]? = some evs →
      c.txns_and_outputs[i]? =
        some (txn, ⟨ws, evs, info.gas_used, TransactionStatus.Keep info.status⟩)) := by
  obtain ⟨spec, hsome, hpos⟩ := replay_impl_spec env chunk_begin transactions
    transaction_infos write_sets event_vecs c st' hlen4 hok
  obtain ⟨c', hc1', hc2', hc3'⟩ := spec.2.2.2.2.2.2.2.2 (by omega)
  rw [hsome] at hc1'
  have hcc : c' = c := by
    simpa using hc1'.symm
  subst hcc
  have htake : chunk_begin + transactions.length - chunk_begin =
      transactions.length := by omega
  rw [htake] at hc3'
  simp only [chunk_outs, chunk_first] at hc2' hc3'
  rw [List.take_length, List.take_of_length_le (le_of_eq hlen2),
    List.take_of_length_le (le_of_eq hlen3),
    List.take_of_length_le (le_of_eq hlen4)] at hc3'
  simp only [List.nil_append] at hc3'
  refine ⟨hc2', hc3', ?_, ?_⟩
  · rw [hc3']
    exact recorded_outputs_length transactions transaction_infos write_sets
      event_vecs hlen2 hlen3 hlen4
  · intro i txn info ws evs h1 h2 h3 h4
    rw [hc3']
    exact recorded_outputs_getElem transactions transaction_infos write_sets
      event_vecs i txn info ws evs h1 h2 h3 h4

theorem C4_amended_witness :
    find_epochs 0 3 [[], [⟨true⟩], []] = [(0, 2), (2, 3)] :=
  (C4_amended [[]] [[]] [⟨true⟩] 0 (by decide) (by decide) (by decide)).1
    (by decide)

theorem C5_witness :
    ((1 : Nat), (2 : Nat)) ∈ ([(0, 1), (1, 2), (2, 3)] : List (Nat × Nat)) ∧
      ¬((0 : Nat) ≤ 1 ∧ (1 : Nat) < 1) := by
  have h := C5_skip_versions_isolated
    ⟨fun v => v == 1, true, true, fun _ => false⟩ 0
    [⟨0⟩, ⟨1⟩, ⟨2⟩] [⟨7, 4, none⟩, ⟨8, 5, none⟩, ⟨9, 6, none⟩]
    [⟨10⟩, ⟨11⟩, ⟨12⟩] [[], [], []]
    ⟨0, [(⟨0⟩, ⟨⟨10⟩, [], 7, .Keep 4⟩), (⟨1⟩, ⟨⟨11⟩, [], 8, .Keep 5⟩),
      (⟨2⟩, ⟨⟨12⟩, [], 9, .Keep 6⟩)]⟩
    ⟨[], [], [], [], some ⟨0, [(⟨0⟩, ⟨⟨10⟩, [], 7, .Keep 4⟩),
      (⟨1⟩, ⟨⟨11⟩, [], 8, .Keep 5⟩), (⟨2⟩, ⟨⟨12⟩, [], 9, .Keep 6⟩)]⟩,
      false, [(0, 1), (1, 2), (2, 3)], [(0, 1), (2, 3)]⟩
    rfl rfl
  exact ⟨h.1 1 rfl (by decide) (by decide), h.2 (0, 1) (by decide) 1 rfl⟩

theorem C6_witness :
    verify_execution ⟨fun _ => false, true, false, fun v => v == 1⟩ false 0 3 =
      .error (ReplayErr.mismatch 1) ∧
    verify_execution ⟨fun _ => false, true, true, fun v => v == 1⟩ false 0 3 =
      .ok (2, true) := by
  have hs := C6_mismatch_strict_fails_lazy_resumes
    ⟨fun _ => false, true, false, fun v => v == 1⟩ false 0 3 1
    (by decide) (by decide) rfl (by decide)
  have hl := C6_mismatch_strict_fails_lazy_resumes
    ⟨fun _ => false, true, true, fun v => v == 1⟩ false 0 3 1
    (by decide) (by decide) rfl (by decide)
  exact ⟨hs.1 rfl, hl.2.1 rfl⟩

theorem C10_witness :
    (⟨0, [(⟨0⟩, ⟨⟨10⟩, [], 7, .Keep 4⟩), (⟨1⟩, ⟨⟨11⟩, [], 8, .Keep 5⟩),
        (⟨2⟩, ⟨⟨12⟩, [], 9, .Keep 6⟩)]⟩ : RExecutedChunk).first_version = 0 ∧
    (⟨0, [(⟨0⟩, ⟨⟨10⟩, [], 7, .Keep 4⟩), (⟨1⟩, ⟨⟨11⟩, [], 8, .Keep 5⟩),
        (⟨2⟩, ⟨⟨12⟩, [], 9, .Keep 6⟩)]⟩ : RExecutedChunk).txns_and_outputs =
      recorded_outputs [⟨0⟩, ⟨1⟩, ⟨2⟩]
        [⟨7, 4, none⟩, ⟨8, 5, none⟩, ⟨9, 6, none⟩] [⟨10⟩, ⟨11⟩, ⟨12⟩]
        [[], [], []] := by
  have h := C10_lazy_replay_full_coverage
    ⟨fun _ => false, true, true, fun v => v == 1⟩ 0
    [⟨0⟩, ⟨1⟩, ⟨2⟩] [⟨7, 4, none⟩, ⟨8, 5, none⟩, ⟨9, 6, none⟩]
    [⟨10⟩, ⟨11⟩, ⟨12⟩] [[], [], []]
    ⟨0, [(⟨0⟩, ⟨⟨10⟩, [], 7, .Keep 4⟩), (⟨1⟩, ⟨⟨11⟩, [], 8, .Keep 5⟩),
      (⟨2⟩, ⟨⟨12⟩, [], 9, .Keep 6⟩)]⟩
    ⟨[], [], [], [], some ⟨0, [(⟨0⟩, ⟨⟨10⟩, [], 7, .Keep 4⟩),
      (⟨1⟩, ⟨⟨11⟩, [], 8, .Keep 5⟩), (⟨2⟩, ⟨⟨12⟩, [], 9, .Keep 6⟩)]⟩,
      true, [(0, 2), (2, 3)], [(0, 3), (2, 3)]⟩
    rfl rfl rfl rfl rfl
  exact ⟨h.1, h.2.1⟩

theorem commit_chunk_impl_head (q : ChunkCommitQueue) (c : ExecutedChunk)
    (rest : List ExecutedChunk) (hq : q.to_commit = c :: rest) :
    ChunkExecutorInner.commit_chunk_impl false q =
      .ok ({ q with to_commit := rest, persisted_state := c.result_state },
        c) := by
  unfold ChunkExecutorInner.commit_chunk_impl
    ChunkCommitQueue.next_chunk_to_commit ChunkCommitQueue.dequeue_committed
  rw [hq]
  by_cases h : (c.ledger_info.isSome || !c.transactions_to_commit.isEmpty) = true
  · simp [h, Except.map]
  · simp [h, Except.map]

/-- C1: under the commit-queue invariant — stage two version-contiguous
from the committed watermark — `n` successive `commit_chunk()` calls
return exactly the first `n` staged chunks, in strictly ascending gap-free
version order starting at the watermark (each returned chunk's first
version equals the watermark left by the previous commit), and the
watermark ends advanced past every committed chunk, with the invariant
preserved. -/
theorem C1_commit_chunks_in_order (n : Nat) :
    ∀ (q : ChunkCommitQueue),
    chunks_contiguous_from q.persisted_state.next_version q.to_commit = true →
    n ≤ q.to_commit.length →
    (run_commits q n).1 = q.to_commit.take n ∧
    chunks_contiguous_from q.persisted_state.next_version
      (run_commits q n).1 = true ∧
    (run_commits q n).2.to_commit = q.to_commit.drop n ∧
    chunks_contiguous_from (run_commits q n).2.persisted_state.next_version
      (run_commits q n).2.to_commit = true ∧
    (run_commits q n).2.persisted_state.next_version =
      end_version_from q.persisted_state.next_version (run_commits q n).1 := by
  induction n with
  | zero =>
    intro q hinv _
    exact ⟨by simp [run_commits], by simp [run_commits, chunks_contiguous_from],
      by simp [run_commits], by simpa [run_commits] using hinv,
      by simp [run_commits, end_version_from]⟩
  | succ n ih =>
    intro q hinv hn
    cases hq : q.to_commit with
    | nil => rw [hq] at hn; simp at hn
    | cons c rest =>
      have hstep := commit_chunk_impl_head q c rest hq
      have hrun : run_commits q (n + 1) =
          (c :: (run_commits
            { q with to_commit := rest, persisted_state := c.result_state }
            n).1,
          (run_commits
            { q with to_commit := rest, persisted_state := c.result_state }
            n).2) := by
        simp [run_commits, hstep]
      rw [hq] at hinv
      simp only [chunks_contiguous_from, Bool.and_eq_true, beq_iff_eq] at hinv
      obtain ⟨⟨hfv, hnext⟩, hrest⟩ := hinv
      have hinv1 : chunks_contiguous_from
          ({ q with to_commit := rest, persisted_state := c.result_state } :
              ChunkCommitQueue).persisted_state.next_version
          ({ q with to_commit := rest, persisted_state := c.result_state } :
              ChunkCommitQueue).to_commit = true := by
        simpa [hnext] using hrest
      have hlen : n ≤ rest.length := by
        rw [hq] at hn
        simpa using hn
      obtain ⟨ih1, ih2, ih3, ih4, ih5⟩ := ih _ hinv1 hlen
      refine ⟨?_, ?_, ?_, ?_, ?_⟩
      · rw [hrun]
        simp [ih1]
      · rw [hrun]
        simp only [chunks_contiguous_from, Bool.and_eq_true, beq_iff_eq]
        refine ⟨⟨hfv, hnext⟩, ?_⟩
        have := ih2
        simpa [hnext] using this
      · rw [hrun]
        simpa using ih3
      · rw [hrun]
        exact ih4
      · rw [hrun]
        simp only [end_version_from, List.foldl_cons]
        rw [ih5]
        simp [end_version_from, hnext]

/-- C8: `commit_chunk` consults the store if and only if the head stage-two
chunk has transactions to commit or carries a ledger info: if so, a store
failure is propagated as a storage error, the watermark is not advanced and
the chunk stays at the head of stage two, so the same call retried with a
working store succeeds and returns the very same chunk; if not, the chunk
is dequeued without any store write (even a failing store cannot fail the
call); on success the watermark advances to the chunk's result state and a
commit notification is returned. -/
theorem C8_commit_persist_iff_retry (q : ChunkCommitQueue)
    (c : ExecutedChunk) (rest : List ExecutedChunk)
    (hq : q.to_commit = c :: rest) :
    ((c.ledger_info.isSome || !c.transactions_to_commit.isEmpty) = true →
      ChunkExecutorInner.commit_chunk_impl true q = .error .storage) ∧
    ((c.ledger_info.isSome || !c.transactions_to_commit.isEmpty) = false →
      ChunkExecutorInner.commit_chunk_impl true q =
        .ok ({ q with to_commit := rest, persisted_state := c.result_state },
          c)) ∧
    ChunkExecutorInner.commit_chunk_impl false q =
      .ok ({ q with to_commit := rest, persisted_state := c.result_state },
        c) ∧
    ChunkExecutorInner.commit_chunk false q =
      .ok ({ q with to_commit := rest, persisted_state := c.result_state },
        c.into_chunk_commit_notification) := by
  have hfalse := commit_chunk_impl_head q c rest hq
  refine ⟨?_, ?_, hfalse, ?_⟩
  · intro hcond
    unfold ChunkExecutorInner.commit_chunk_impl
      ChunkCommitQueue.next_chunk_to_commit
    rw [hq]
    simp [hcond]
  · intro hcond
    unfold ChunkExecutorInner.commit_chunk_impl
      ChunkCommitQueue.next_chunk_to_commit ChunkCommitQueue.dequeue_committed
    rw [hq]
    simp [hcond, Except.map]
  · unfold ChunkExecutorInner.commit_chunk
    rw [hfalse]
    rfl

/-- C7: `update_ledger`, after popping the oldest stage-one record and the
parent accumulator: propagates a failed extends-check; fails fatally
(`overlap_assert`, the `assert_eq!` panic) on a non-zero overlap; fails on
a non-empty discard or retry set; fails when the finalized transaction
infos do not exactly match the proof's; and only when every check passes is
the executed chunk pushed to stage two (with the staged accumulator
advanced). -/
theorem C7_update_ledger_checks
    (verify_extends_result : Except PipelineErr Nat)
    (lu_output : LedgerUpdateOutput)
    (to_discard to_retry : List Transaction)
    (ledger_info_result : Except PipelineErr (Option LedgerInfo))
    (q : ChunkCommitQueue) (c0 : ChunkToUpdateLedger)
    (rest : List ChunkToUpdateLedger)
    (hq : q.to_update_ledger = c0 :: rest) :
    (∀ e, verify_extends_result = .error e →
      ChunkExecutorInner.update_ledger verify_extends_result lu_output
        to_discard to_retry ledger_info_result q = .error e) ∧
    (∀ n, verify_extends_result = .ok n → n ≠ 0 →
      ChunkExecutorInner.update_ledger verify_extends_result lu_output
        to_discard to_retry ledger_info_result q = .error .overlap_assert) ∧
    (verify_extends_result = .ok 0 → to_discard ≠ [] →
      ChunkExecutorInner.update_ledger verify_extends_result lu_output
        to_discard to_retry ledger_info_result q =
          .error .unexpected_discard) ∧
    (verify_extends_result = .ok 0 → to_discard = [] → to_retry ≠ [] →
      ChunkExecutorInner.update_ledger verify_extends_result lu_output
        to_discard to_retry ledger_info_result q = .error .unexpected_retry) ∧
    (verify_extends_result = .ok 0 → to_discard = [] → to_retry = [] →
      lu_output.transaction_infos ≠
        c0.txn_infos_with_proof.transaction_infos →
      ChunkExecutorInner.update_ledger verify_extends_result lu_output
        to_discard to_retry ledger_info_result q =
          .error .txn_info_mismatch) ∧
    (∀ li, verify_extends_result = .ok 0 → to_discard = [] → to_retry = [] →
      lu_output.transaction_infos =
        c0.txn_infos_with_proof.transaction_infos →
      ledger_info_result = .ok li →
      ChunkExecutorInner.update_ledger verify_extends_result lu_output
        to_discard to_retry ledger_info_result q =
        .ok { q with
          to_update_ledger := rest,
          to_commit := q.to_commit ++
            [⟨c0.result_state, li, c0.next_epoch_state, lu_output⟩],
          latest_txn_accumulator := lu_output.transaction_accumulator }) := by
  refine ⟨?_, ?_, ?_, ?_, ?_, ?_⟩
  · intro e he
    unfold ChunkExecutorInner.update_ledger
      ChunkCommitQueue.next_chunk_to_update_ledger
    rw [hq, he]
  · intro n hn hnz
    unfold ChunkExecutorInner.update_ledger
      ChunkCommitQueue.next_chunk_to_update_ledger
    rw [hq, hn]
    simp [hnz]
  · intro hv hd
    unfold ChunkExecutorInner.update_ledger
      ChunkCommitQueue.next_chunk_to_update_ledger
    rw [hq, hv]
    simp [hd]
  · intro hv hd hr
    unfold ChunkExecutorInner.update_ledger
      ChunkCommitQueue.next_chunk_to_update_ledger
    rw [hq, hv]
    simp [hd, hr]
  · intro hv hd hr hmm
    unfold ChunkExecutorInner.update_ledger
      ChunkCommitQueue.next_chunk_to_update_ledger
    rw [hq, hv]
    simp [hd, hr, hmm]
  · intro li hv hd hr hmm hli
    unfold ChunkExecutorInner.update_ledger
      ChunkCommitQueue.next_chunk_to_update_ledger
      ChunkCommitQueue.save_ledger_update_output
    rw [hq, hv, hli]
    simp [hd, hr, hmm]

/-- C2: both enqueue paths fail with a validation error — before anything
is executed and without touching the queue — when the transaction list is
empty, when the first version is absent, or when the first version differs
from the queue's current next-version; a modified queue is only ever
returned on success. -/
theorem C2_enqueue_validation (verify_ok : Bool)
    (ckpt_result_state : StateDelta) (ckpt_next_epoch : Option EpochState)
    (ckpt_output : StateCheckpointOutput) (q : ChunkCommitQueue)
    (txn_list : TransactionListWithProof)
    (txn_output_list : TransactionOutputListWithProof)
    (verified_target_li : LedgerInfo)
    (epoch_change_li : Option LedgerInfo) :
    (txn_list.transactions = [] →
      ChunkExecutorInner.enqueue_chunk_by_execution verify_ok
        ckpt_result_state ckpt_next_epoch ckpt_output q txn_list
        verified_target_li epoch_change_li = .error .empty_chunk) ∧
    (txn_list.transactions ≠ [] →
      txn_list.first_transaction_version = none →
      ChunkExecutorInner.enqueue_chunk_by_execution verify_ok
        ckpt_result_state ckpt_next_epoch ckpt_output q txn_list
        verified_target_li epoch_change_li =
          .error .missing_first_version) ∧
    (∀ fv, txn_list.transactions ≠ [] →
      txn_list.first_transaction_version = some fv →
      fv ≠ q.latest_state.next_version →
      ChunkExecutorInner.enqueue_chunk_by_execution verify_ok
        ckpt_result_state ckpt_next_epoch ckpt_output q txn_list
        verified_target_li epoch_change_li =
          .error (.version_mismatch fv q.latest_state.next_version)) ∧
    (txn_output_list.transactions_and_outputs = [] →
      ChunkExecutorInner.enqueue_chunk_by_transaction_outputs verify_ok
        ckpt_result_state ckpt_next_epoch ckpt_output q txn_output_list
        verified_target_li epoch_change_li = .error .empty_chunk) ∧
    (txn_output_list.transactions_and_outputs ≠ [] →
      txn_output_list.first_transaction_output_version = none →
      ChunkExecutorInner.enqueue_chunk_by_transaction_outputs verify_ok
        ckpt_result_state ckpt_next_epoch ckpt_output q txn_output_list
        verified_target_li epoch_change_li =
          .error .missing_first_version) ∧
    (∀ fv, txn_output_list.transactions_and_outputs ≠ [] →
      txn_output_list.first_transaction_output_version = some fv →
      fv ≠ q.latest_state.next_version →
      ChunkExecutorInner.enqueue_chunk_by_transaction_outputs verify_ok
        ckpt_result_state ckpt_next_epoch ckpt_output q txn_output_list
        verified_target_li epoch_change_li =
          .error (.version_mismatch fv q.latest_state.next_version)) := by
  refine ⟨?_, ?_, ?_, ?_, ?_, ?_⟩
  · intro he
    unfold ChunkExecutorInner.enqueue_chunk_by_execution
    simp [he]
  · intro hne hnone
    unfold ChunkExecutorInner.enqueue_chunk_by_execution
    rw [hnone]
    simp [hne]
  · intro fv hne hsome hfv
    unfold ChunkExecutorInner.enqueue_chunk_by_execution
    rw [hsome]
    simp [hne, hfv]
  · intro he
    unfold ChunkExecutorInner.enqueue_chunk_by_transaction_outputs
    simp [he]
  · intro hne hnone
    unfold ChunkExecutorInner.enqueue_chunk_by_transaction_outputs
    rw [hnone]
    simp [hne]
  · intro fv hne hsome hfv
    unfold ChunkExecutorInner.enqueue_chunk_by_transaction_outputs
    rw [hsome]
    simp [hne, hfv]

/-- C3 as stated is false on the code: `enqueue_chunk_by_execution` calls
`maybe_initialize` first, so after `finish()` it re-creates the inner
instance from the store and succeeds instead of failing with a
"not initialized" error. Concrete run: a fresh executor, `finish()`, then a
valid 1-transaction chunk at version 0 — the enqueue returns `ok`. -/
theorem C3_counterexample :
    (ChunkExecutor.enqueue_chunk_by_execution true ⟨some 0, none⟩ none ⟨0⟩
      (ChunkExecutor.finish ⟨⟨⟨none, none⟩, ⟨0, 0⟩⟩,
        some (ChunkCommitQueue.new_from_db ⟨⟨none, none⟩, ⟨0, 0⟩⟩)⟩)
      ⟨[⟨0⟩], some 0, ⟨[⟨0, 0, none⟩]⟩⟩ ⟨0⟩ none).isOk = true := by
  decide

/-- C3 (amended): after `finish()`, `enqueue_chunk_by_transaction_outputs`,
`update_ledger`, `commit_chunk` and `commit` hit the `expect("not reset")`
panic instead of returning a descriptive error, while
`enqueue_chunk_by_execution` and `replay` first re-create the inner
instance from the store's persisted state (`maybe_initialize`) and behave
exactly as after a `reset()`; `reset()` rebuilds the inner queue from the
store's persisted state. -/
theorem C3_amended_lifecycle (x : ChunkExecutor) :
    (∀ ver lu td tr li, ChunkExecutor.update_ledger ver lu td tr li
      x.finish = .error .not_reset_panic) ∧
    (∀ sf, ChunkExecutor.commit_chunk sf x.finish =
      .error .not_reset_panic) ∧
    (∀ sf, ChunkExecutor.commit sf x.finish = .error .not_reset_panic) ∧
    (∀ vo rs ne so tol vli ecli,
      ChunkExecutor.enqueue_chunk_by_transaction_outputs vo rs ne so
        x.finish tol vli ecli = .error .not_reset_panic) ∧
    x.finish.maybe_initialize = x.reset ∧
    (∀ vo rs ne so tl vli ecli,
      ChunkExecutor.enqueue_chunk_by_execution vo rs ne so x.finish tl vli
        ecli =
      ChunkExecutor.enqueue_chunk_by_execution vo rs ne so x.reset tl vli
        ecli) ∧
    (∀ env conv ts tis wss evs,
      ChunkExecutor.replay env conv x.finish ts tis wss evs =
        ChunkExecutor.replay env conv x.reset ts tis wss evs) ∧
    x.reset.inner = some (ChunkCommitQueue.new_from_db x.db) := by
  refine ⟨fun _ _ _ _ _ => rfl, fun _ => rfl, fun _ => rfl,
    fun _ _ _ _ _ _ _ => rfl, rfl, fun _ _ _ _ _ _ _ => rfl,
    fun _ _ _ _ _ _ => rfl, rfl⟩

theorem C1_witness :
    (run_commits ⟨[],
      [⟨⟨some 1, none⟩, none, none, ⟨0, [], [⟨0⟩, ⟨1⟩], ⟨2, 0⟩⟩⟩,
        ⟨⟨some 3, none⟩, none, none, ⟨2, [], [⟨2⟩, ⟨3⟩], ⟨4, 0⟩⟩⟩],
      ⟨some 3, none⟩, ⟨4, 0⟩, ⟨none, none⟩⟩ 2).1 =
      [⟨⟨some 1, none⟩, none, none, ⟨0, [], [⟨0⟩, ⟨1⟩], ⟨2, 0⟩⟩⟩,
        ⟨⟨some 3, none⟩, none, none, ⟨2, [], [⟨2⟩, ⟨3⟩], ⟨4, 0⟩⟩⟩] :=
  (C1_commit_chunks_in_order 2 _ (by decide) (by decide)).1

theorem C2_witness :
    ChunkExecutorInner.enqueue_chunk_by_execution true ⟨none, none⟩ none ⟨0⟩
      (ChunkCommitQueue.new_from_db ⟨⟨none, none⟩, ⟨0, 0⟩⟩)
      ⟨[], none, ⟨[]⟩⟩ ⟨0⟩ none = .error .empty_chunk ∧
    ChunkExecutorInner.enqueue_chunk_by_execution true ⟨none, none⟩ none ⟨0⟩
      (ChunkCommitQueue.new_from_db ⟨⟨none, none⟩, ⟨0, 0⟩⟩)
      ⟨[⟨0⟩], some 5, ⟨[]⟩⟩ ⟨0⟩ none = .error (.version_mismatch 5 0) := by
  have h1 := (C2_enqueue_validation true ⟨none, none⟩ none ⟨0⟩
    (ChunkCommitQueue.new_from_db ⟨⟨none, none⟩, ⟨0, 0⟩⟩)
    ⟨[], none, ⟨[]⟩⟩ ⟨[], none, ⟨[]⟩⟩ ⟨0⟩ none).1 rfl
  have h2 := (C2_enqueue_validation true ⟨none, none⟩ none ⟨0⟩
    (ChunkCommitQueue.new_from_db ⟨⟨none, none⟩, ⟨0, 0⟩⟩)
    ⟨[⟨0⟩], some 5, ⟨[]⟩⟩ ⟨[], none, ⟨[]⟩⟩ ⟨0⟩ none).2.2.1 5
    (by decide) rfl (by decide)
  exact ⟨h1, h2⟩

theorem C7_witness :
    ChunkExecutorInner.update_ledger (.ok 1)
      ⟨0, [⟨1, 2, none⟩], [⟨0⟩, ⟨1⟩], ⟨2, 9⟩⟩ [] [] (.ok none)
      ⟨[⟨⟨some 1, none⟩, ⟨0⟩, none, ⟨5⟩, none, ⟨[⟨1, 2, none⟩]⟩⟩], [],
        ⟨some 1, none⟩, ⟨2, 7⟩, ⟨none, none⟩⟩ = .error .overlap_assert ∧
    ChunkExecutorInner.update_ledger (.ok 0)
      ⟨0, [⟨1, 2, none⟩], [⟨0⟩, ⟨1⟩], ⟨2, 9⟩⟩ [] [] (.ok (some ⟨5⟩))
      ⟨[⟨⟨some 1, none⟩, ⟨0⟩, none, ⟨5⟩, none, ⟨[⟨1, 2, none⟩]⟩⟩], [],
        ⟨some 1, none⟩, ⟨2, 7⟩, ⟨none, none⟩⟩ =
      .ok ⟨[], [⟨⟨some 1, none⟩, some ⟨5⟩, none,
        ⟨0, [⟨1, 2, none⟩], [⟨0⟩, ⟨1⟩], ⟨2, 9⟩⟩⟩],
        ⟨some 1, none⟩, ⟨2, 9⟩, ⟨none, none⟩⟩ := by
  have h1 := (C7_update_ledger_checks (.ok 1)
    ⟨0, [⟨1, 2, none⟩], [⟨0⟩, ⟨1⟩], ⟨2, 9⟩⟩ [] [] (.ok none)
    ⟨[⟨⟨some 1, none⟩, ⟨0⟩, none, ⟨5⟩, none, ⟨[⟨1, 2, none⟩]⟩⟩], [],
      ⟨some 1, none⟩, ⟨2, 7⟩, ⟨none, none⟩⟩
    ⟨⟨some 1, none⟩, ⟨0⟩, none, ⟨5⟩, none, ⟨[⟨1, 2, none⟩]⟩⟩ [] rfl).2.1 1
    rfl (by decide)
  have h2 := (C7_update_ledger_checks (.ok 0)
    ⟨0, [⟨1, 2, none⟩], [⟨0⟩, ⟨1⟩], ⟨2, 9⟩⟩ [] [] (.ok (some ⟨5⟩))
    ⟨[⟨⟨some 1, none⟩, ⟨0⟩, none, ⟨5⟩, none, ⟨[⟨1, 2, none⟩]⟩⟩], [],
      ⟨some 1, none⟩, ⟨2, 7⟩, ⟨none, none⟩⟩
    ⟨⟨some 1, none⟩, ⟨0⟩, none, ⟨5⟩, none, ⟨[⟨1, 2, none⟩]⟩⟩ []
    rfl).2.2.2.2.2 (some ⟨5⟩) rfl rfl rfl rfl rfl
  exact ⟨h1, h2⟩

theorem C8_witness :
    ChunkExecutorInner.commit_chunk_impl true
      ⟨[], [⟨⟨some 1, none⟩, none, none, ⟨0, [], [⟨0⟩, ⟨1⟩], ⟨2, 0⟩⟩⟩],
        ⟨some 1, none⟩, ⟨2, 0⟩, ⟨none, none⟩⟩ = .error .storage ∧
    ChunkExecutorInner.commit_chunk_impl false
      ⟨[], [⟨⟨some 1, none⟩, none, none, ⟨0, [], [⟨0⟩, ⟨1⟩], ⟨2, 0⟩⟩⟩],
        ⟨some 1, none⟩, ⟨2, 0⟩, ⟨none, none⟩⟩ =
      .ok (⟨[], [], ⟨some 1, none⟩, ⟨2, 0⟩, ⟨some 1, none⟩⟩,
        ⟨⟨some 1, none⟩, none, none, ⟨0, [], [⟨0⟩, ⟨1⟩], ⟨2, 0⟩⟩⟩) := by
  have h := C8_commit_persist_iff_retry
    ⟨[], [⟨⟨some 1, none⟩, none, none, ⟨0, [], [⟨0⟩, ⟨1⟩], ⟨2, 0⟩⟩⟩],
      ⟨some 1, none⟩, ⟨2, 0⟩, ⟨none, none⟩⟩
    ⟨⟨some 1, none⟩, none, none, ⟨0, [], [⟨0⟩, ⟨1⟩], ⟨2, 0⟩⟩⟩ [] rfl
  exact ⟨h.1 (by decide), h.2.2.1⟩
